import Mathlib

/-!
Verification development for the pulse-upload ingestion pipeline
(supabase/functions/pulse-upload/index.ts).

The TypeScript source is shallowly embedded below.  JavaScript numbers are
modelled by `JSNum`: an exact rational for every finite value plus the three
non-finite values `NaN`, `Infinity` and `-Infinity`.  Finite arithmetic is
idealized as exact rational arithmetic (no rounding), while the propagation
rules for the non-finite values follow IEEE/JS semantics.  Cell values coming
out of the row-extraction collaborator are `CellValue` (null/undefined, a
number, or a string); `Date` instances do not occur with the `raw: true`
extraction options used by the source and are not modelled.
-/

/-- Model of a JavaScript number: NaN, the two infinities, or a finite value
(idealized as an exact rational). -/
inductive JSNum where
  | nan : JSNum
  | inf : JSNum
  | ninf : JSNum
  | fin : ℚ → JSNum
deriving DecidableEq

namespace JSNum

/-- JS addition (`+`) on numbers: NaN is absorbing, opposite infinities give
NaN, an infinity dominates finite values, finite addition is exact. -/
def add : JSNum → JSNum → JSNum
  | nan, _ => nan
  | _, nan => nan
  | inf, ninf => nan
  | ninf, inf => nan
  | inf, _ => inf
  | _, inf => inf
  | ninf, _ => ninf
  | _, ninf => ninf
  | fin p, fin q => fin (p + q)

/-- JS unary negation on numbers. -/
def neg : JSNum → JSNum
  | nan => nan
  | inf => ninf
  | ninf => inf
  | fin q => fin (-q)

/-- JS division (`/`): NaN absorbing, inf/inf = NaN, finite/inf = 0,
finite/0 follows the sign of the numerator (signed zeros are not modelled),
finite division is exact. -/
def div : JSNum → JSNum → JSNum
  | nan, _ => nan
  | _, nan => nan
  | inf, inf => nan
  | inf, ninf => nan
  | ninf, inf => nan
  | ninf, ninf => nan
  | inf, fin q => if q < 0 then ninf else inf
  | ninf, fin q => if q < 0 then inf else ninf
  | fin _, inf => fin 0
  | fin _, ninf => fin 0
  | fin p, fin q =>
    if q = 0 then (if p = 0 then nan else if p < 0 then ninf else inf)
    else fin (p / q)

/-- JS strict comparison `a > b` (false whenever either side is NaN). -/
def gt : JSNum → JSNum → Bool
  | nan, _ => false
  | _, nan => false
  | inf, inf => false
  | inf, _ => true
  | ninf, _ => false
  | fin _, inf => false
  | fin _, ninf => true
  | fin p, fin q => decide (q < p)

/-- JS comparison `a <= b` (false whenever either side is NaN). -/
def le : JSNum → JSNum → Bool
  | nan, _ => false
  | _, nan => false
  | ninf, _ => true
  | _, ninf => false
  | _, inf => true
  | inf, _ => false
  | fin p, fin q => decide (p ≤ q)

/-- JS `isFinite`. -/
def isFinite : JSNum → Bool
  | fin _ => true
  | _ => false

end JSNum

/-- A raw cell value as delivered by the row-extraction collaborator:
`vnull` covers both JS `null` and `undefined` (the source treats them
identically), `vnum` a native number, `vstr` a string. -/
inductive CellValue where
  | vnull : CellValue
  | vnum : JSNum → CellValue
  | vstr : String → CellValue
deriving DecidableEq

/-- Decimal digits of the fractional part `num/den` (long division),
fuel-capped; JS doubles always have terminating decimal expansions, the cap
merely guarantees termination of the model. -/
def ratDecimalDigits : ℕ → ℕ → ℕ → List Char
  | 0, _, _ => []
  | _ + 1, 0, _ => []
  | fuel + 1, rem, den =>
    let r10 := rem * 10
    Char.ofNat (48 + r10 / den) :: ratDecimalDigits fuel (r10 % den) den

/-- Decimal string of a rational, modelling JS number-to-string for the
(terminating-decimal) values doubles can take.  Exponential notation for
very large/small magnitudes is not modelled. -/
def ratDecimalString (q : ℚ) : String :=
  let sign := if q < 0 then "-" else ""
  let n : ℕ := q.num.natAbs
  let d : ℕ := q.den
  let frac := ratDecimalDigits 64 (n % d) d
  sign ++ toString (n / d) ++ (if frac.isEmpty then "" else "." ++ String.mk frac)

/-- JS `String(x)` for a number. -/
def jsNumToString : JSNum → String
  | JSNum.nan => "NaN"
  | JSNum.inf => "Infinity"
  | JSNum.ninf => "-Infinity"
  | JSNum.fin q => ratDecimalString q

/-- JS `String(header ?? '')` as used by `normalizeHeader` / `buildColumnMeta`:
null and undefined collapse to the empty string. -/
def headerString : CellValue → String
  | CellValue.vnull => ""
  | CellValue.vnum n => jsNumToString n
  | CellValue.vstr s => s

/-- JS `String(x)` for a value already known not to be null/undefined (the
normalizers test for null before converting). -/
def cellString : CellValue → String
  | CellValue.vnull => ""
  | CellValue.vnum n => jsNumToString n
  | CellValue.vstr s => s

/-- Characters matched by the JS regex class `\s` (common cases). -/
def isJsSpace (c : Char) : Bool :=
  c = ' ' || c = '\t' || c = '\n' || c = '\r' || c = '\x0b' || c = '\x0c'

/-- Characters matched by `[\s_]` in `normalizeHeader`. -/
def isSpaceOrUnderscore (c : Char) : Bool :=
  isJsSpace c || c = '_'

/-- Collapse every run of `[\s_]` characters to a single space
(the `replace(/[\s_]+/g, ' ')` step); the boolean tracks whether the
previous character was part of such a run. -/
def collapseRuns : Bool → List Char → List Char
  | _, [] => []
  | prevSpace, c :: rest =>
    if isSpaceOrUnderscore c then
      if prevSpace then collapseRuns true rest
      else ' ' :: collapseRuns true rest
    else c :: collapseRuns false rest

/-- Drop spaces at both ends (the `.trim()` step; after collapsing, the only
whitespace left is the plain space). -/
def trimSpaces (l : List Char) : List Char :=
  ((l.dropWhile (fun c => c = ' ')).reverse.dropWhile (fun c => c = ' ')).reverse

/-- `normalizeHeader` from the source: stringify, lower-case, collapse
whitespace/underscore runs to single spaces, trim. -/
def normalizeHeader (header : CellValue) : String :=
  String.mk (trimSpaces (collapseRuns false ((headerString header).toList.map Char.toLower)))

/-- JS `str.trim()`. -/
def jsTrim (s : String) : String :=
  String.mk (((s.toList.dropWhile isJsSpace).reverse.dropWhile isJsSpace).reverse)

/-- `normalizeTextCell` from the source: null for null/undefined and for
strings that trim to empty, the trimmed string otherwise. -/
def normalizeTextCell (value : CellValue) : Option String :=
  match value with
  | CellValue.vnull => none
  | v =>
    let str := jsTrim (cellString v)
    if str.length = 0 then none else some str

/-- Pattern-matching prefix test (first argument is the pattern). -/
def listStarts : List Char → List Char → Bool
  | [], _ => true
  | _ :: _, [] => false
  | a :: as, b :: bs => (a == b) && listStarts as bs

/-- Substring occurrence test on character lists. -/
def listInfix (sub : List Char) : List Char → Bool
  | [] => listStarts sub []
  | c :: rest => listStarts sub (c :: rest) || listInfix sub rest

/-- JS `s.includes(sub)`. -/
def strContains (s sub : String) : Bool :=
  listInfix sub.toList s.toList

/-- Digit-list to natural number. -/
def digitsToNat (l : List Char) : ℕ :=
  l.foldl (fun acc c => acc * 10 + (c.toNat - 48)) 0

/-- Exponent part of a JS float literal: optional sign then digits; an
exponent marker without digits is ignored (JS backtracks to the mantissa
alone, so the effective exponent is 0). -/
def jsParseExp (l : List Char) : ℤ :=
  let (eneg, l) :=
    match l with
    | '-' :: rest => (true, rest)
    | '+' :: rest => (false, rest)
    | rest => (false, rest)
  let ds := l.takeWhile Char.isDigit
  if ds.isEmpty then 0
  else if eneg then -(digitsToNat ds : ℤ) else (digitsToNat ds : ℤ)

/-- JS `parseFloat`: skip leading whitespace, optional sign, either the
literal `Infinity` or a decimal mantissa with optional fractional part and
optional exponent; trailing garbage is ignored; NaN when no numeric prefix
exists. -/
def jsParseFloat (s : String) : JSNum :=
  let l := s.toList.dropWhile isJsSpace
  let (negSign, l) :=
    match l with
    | '-' :: rest => (true, rest)
    | '+' :: rest => (false, rest)
    | rest => (false, rest)
  match l with
  | 'I' :: 'n' :: 'f' :: 'i' :: 'n' :: 'i' :: 't' :: 'y' :: _ =>
    if negSign then JSNum.ninf else JSNum.inf
  | l =>
    let intPart := l.takeWhile Char.isDigit
    let afterInt := l.dropWhile Char.isDigit
    let (fracPart, afterFrac) :=
      match afterInt with
      | '.' :: rest => (rest.takeWhile Char.isDigit, rest.dropWhile Char.isDigit)
      | rest => ([], rest)
    if intPart.isEmpty && fracPart.isEmpty then JSNum.nan
    else
      let mant : ℚ :=
        (digitsToNat intPart : ℚ) + (digitsToNat fracPart : ℚ) / (10 : ℚ) ^ fracPart.length
      let expVal : ℤ :=
        match afterFrac with
        | 'e' :: rest => jsParseExp rest
        | 'E' :: rest => jsParseExp rest
        | _ => 0
      let value : ℚ := mant * (10 : ℚ) ^ expVal
      JSNum.fin (if negSign then -value else value)

/-- `parseNumeric` from the source: native numbers pass through unless they
are NaN; strings are trimmed, stripped of `$`/`,`/`%`/whitespace, a
parenthesized value is negated, and the result parsed with `parseFloat`
(null on NaN). -/
def parseNumeric (val : CellValue) : Option JSNum :=
  match val with
  | CellValue.vnull => none
  | CellValue.vnum n => if n = JSNum.nan then none else some n
  | v =>
    let str := jsTrim (cellString v)
    if str.length = 0 then none
    else
      let cleaned := str.toList.filter (fun c => !(c = '$' || c = ',' || c = '%' || isJsSpace c))
      let (cleaned, negate) :=
        match cleaned with
        | '(' :: rest =>
          if rest.getLast? = some ')' then (rest.dropLast, true)
          else ('(' :: rest, false)
        | l => (l, false)
      let cleaned := cleaned.filter (fun c => !(c = ','))
      match jsParseFloat (String.mk cleaned) with
      | JSNum.nan => none
      | num => some (if negate then num.neg else num)

/-!  A small regular-expression model sufficient for the literal patterns in
`HEADER_RULES`.  Only the constructs those patterns use are represented:
character literals/classes, `\s*`-style starred classes, `.*`, alternation,
concatenation and the zero-width word boundary `\b`.  `rxTest` implements the
unanchored `RegExp.test`. -/

/-- Regex syntax for the header patterns. -/
inductive Rx where
  | eps : Rx
  | cls : (Char → Bool) → Rx
  | starCls : (Char → Bool) → Rx
  | wb : Rx
  | cat : Rx → Rx → Rx
  | alt : Rx → Rx → Rx

/-- JS `\w` (ASCII word character). -/
def isWordChar (c : Char) : Bool :=
  c.isAlphanum || c = '_'

/-- Whether a word boundary sits between the previous character (none at the
start) and the next character (none at the end). -/
def wordBoundary (prev : Option Char) (next : Option Char) : Bool :=
  (match prev with | none => false | some c => isWordChar c)
    ≠ (match next with | none => false | some c => isWordChar c)

/-- All ways a starred class can consume a prefix: each result is the
previous-character context together with the remaining input. -/
def starSplits (p : Char → Bool) : Option Char → List Char → List (Option Char × List Char)
  | prev, [] => [(prev, [])]
  | prev, c :: rest =>
    (prev, c :: rest) :: (if p c then starSplits p (some c) rest else [])

/-- Run a regex against an input, threading the previous-character context
(for word boundaries); returns every (context, remainder) pair reachable
after matching. -/
def runRx : Rx → Option Char → List Char → List (Option Char × List Char)
  | Rx.eps, prev, s => [(prev, s)]
  | Rx.cls p, _, s =>
    match s with
    | [] => []
    | c :: rest => if p c then [(some c, rest)] else []
  | Rx.starCls p, prev, s => starSplits p prev s
  | Rx.wb, prev, s => if wordBoundary prev s.head? then [(prev, s)] else []
  | Rx.cat a b, prev, s => (runRx a prev s).flatMap (fun pr => runRx b pr.1 pr.2)
  | Rx.alt a b, prev, s => runRx a prev s ++ runRx b prev s

/-- Unanchored `RegExp.test`: allow an arbitrary consumed prefix, then match. -/
def rxTest (r : Rx) (s : String) : Bool :=
  !(runRx (Rx.cat (Rx.starCls (fun _ => true)) r) none s.toList).isEmpty

/-- Literal string regex. -/
def rlit (s : String) : Rx :=
  s.toList.foldr (fun c acc => Rx.cat (Rx.cls (fun d => d == c)) acc) Rx.eps

/-- `\s*`. -/
def rws : Rx := Rx.starCls isJsSpace

/-- `.*` (`.` matches everything relevant here; JS `.` excludes line
terminators, which cannot occur in normalized headers). -/
def rany : Rx := Rx.starCls (fun _ => true)

/-- Optional single character (`c?`). -/
def ropt (c : Char) : Rx := Rx.alt Rx.eps (Rx.cls (fun d => d == c))

/-- The nine canonical column roles. -/
inductive CanonicalKey where
  | net_sales | guests | tips | labor_cost | labor_hours | labor_percent
  | date | category | item
deriving DecidableEq

/-- The dataset-type classification of a file. -/
inductive DatasetType where
  | item_sales | category_rollup | daily_sales | labor | tips | general_sales
  | unknown
deriving DecidableEq

/-- One entry of `HEADER_RULES`.  In the source `allowGross` is an optional
boolean that only the `net_sales` rule sets (to `false`); since the guard
`!rule.allowGross` treats `undefined` and `false` identically, it is modelled
as a plain `Bool` defaulting to `false`. -/
structure HeaderRule where
  key : CanonicalKey
  patterns : List Rx
  allowGross : Bool

/-- The first entry of `HEADER_RULES` (the `net_sales` rule), named so that
theorems about the rule-priority order can refer to it. -/
def netSalesHeaderRule : HeaderRule :=
  { key := CanonicalKey.net_sales
    patterns :=
      [ Rx.cat (rlit "net") (Rx.cat rws (rlit "sales"))
      , Rx.cat (rlit "sales") (Rx.cat rws (rlit "(net)"))
      , Rx.cat (rlit "sales") (Rx.cat rws (rlit "net"))
      , Rx.cat (rlit "net") (Rx.cat rws (rlit "revenue"))
      , Rx.cat Rx.wb (Rx.cat (rlit "net") (Rx.cat Rx.wb (Rx.cat rany (rlit "sales"))))
      , Rx.cat (rlit "sales") (Rx.cat rany (Rx.cat Rx.wb (Rx.cat (rlit "net") Rx.wb)))
      ]
    allowGross := false }

/-- `HEADER_RULES` from the source, with each JS regex transcribed. -/
def HEADER_RULES : List HeaderRule :=
  [ netSalesHeaderRule
  , { key := CanonicalKey.tips
      patterns :=
        [ Rx.cat (rlit "tip") (ropt 's')
        , rlit "gratuity"
        , Rx.cat (rlit "service") (Rx.cat rws (rlit "charge"))
        , Rx.cat (rlit "auto") (Rx.cat rws (rlit "grat"))
        , Rx.cat (rlit "suggested") (Rx.cat rws (rlit "gratuity"))
        ]
      allowGross := false }
  , { key := CanonicalKey.guests
      patterns :=
        [ Rx.cat (rlit "guest") (ropt 's')
        , Rx.cat (rlit "cover") (ropt 's')
        , rlit "pax"
        , Rx.cat (rlit "diner") (ropt 's')
        , rlit "heads"
        ]
      allowGross := false }
  , { key := CanonicalKey.labor_cost
      patterns :=
        [ Rx.cat (rlit "labor") (Rx.cat rany (Rx.alt (rlit "cost") (rlit "expense")))
        , Rx.cat (rlit "labor") (Rx.cat rws (rlit "total"))
        , rlit "payroll"
        , rlit "wages"
        , rlit "salary"
        , rlit "compensation"
        ]
      allowGross := false }
  , { key := CanonicalKey.labor_hours
      patterns :=
        [ Rx.cat (rlit "labor") (Rx.cat rany (rlit "hours"))
        , Rx.cat (rlit "hours") (Rx.cat rws (rlit "worked"))
        , Rx.cat (rlit "staff") (Rx.cat rws (rlit "hours"))
        , Rx.cat (rlit "hours") (Rx.cat rws (rlit "labor"))
        , Rx.cat (rlit "scheduled") (Rx.cat rws (rlit "hours"))
        ]
      allowGross := false }
  , { key := CanonicalKey.labor_percent
      patterns :=
        [ Rx.cat (rlit "labor") (Rx.cat rany (rlit "%"))
        , Rx.cat (rlit "labor") (Rx.cat rws (Rx.alt (rlit "percent") (rlit "percentage")))
        , Rx.cat (rlit "labor") (Rx.cat rws (Rx.cat (rlit "cost") (Rx.cat rws (rlit "%"))))
        , Rx.cat (rlit "labor") (Rx.cat rws (Rx.cat (rlit "%")
            (Rx.cat rws (Rx.cat (rlit "of") (Rx.cat rws (rlit "sales"))))))
        ]
      allowGross := false }
  , { key := CanonicalKey.date
      patterns :=
        [ Rx.cat (rlit "business") (Rx.cat rws (rlit "date"))
        , Rx.cat (rlit "service") (Rx.cat rws (rlit "date"))
        , rlit "date"
        , Rx.cat Rx.wb (Rx.cat (rlit "day") Rx.wb)
        , Rx.cat (rlit "trans") (Rx.cat rws (rlit "date"))
        , Rx.cat (rlit "posted") (Rx.cat rws (rlit "date"))
        ]
      allowGross := false }
  , { key := CanonicalKey.category
      patterns :=
        [ rlit "category", rlit "dept", rlit "department", rlit "segment"
        , rlit "family", rlit "class" ]
      allowGross := false }
  , { key := CanonicalKey.item
      patterns :=
        [ rlit "item"
        , Rx.cat (rlit "menu") (Rx.cat rws (rlit "item"))
        , rlit "product", rlit "description", rlit "plu", rlit "sku" ]
      allowGross := false }
  ]

/-- `HEADER_HINTS` from the source. -/
def HEADER_HINTS : List String :=
  [ "sales", "net", "guest", "cover", "tip", "labor", "category", "item"
  , "date", "revenue", "hours" ]

/-- `MAX_SAMPLE_ROWS` from the source. -/
def MAX_SAMPLE_ROWS : ℕ := 50

/-- `isMeaningfulRow` from the source: at least one cell that is a non-NaN
number or a non-blank string. -/
def isMeaningfulRow (row : List CellValue) : Bool :=
  row.any fun cell =>
    match cell with
    | CellValue.vnull => false
    | CellValue.vnum n => !(n = JSNum.nan)
    | CellValue.vstr s => (jsTrim s).length > 0

/-- Keyword-hit score of one candidate header row. -/
def headerRowScore (row : List CellValue) : ℕ :=
  row.foldl
    (fun total cell =>
      let c := normalizeHeader cell
      if c.length = 0 then total
      else total + (HEADER_HINTS.filter (fun hint => strContains c hint)).length)
    0

/-- `detectHeaderRow` from the source: scan the first 25 rows, keep the first
row attaining the highest keyword score. -/
def detectHeaderRow (rows : List (List CellValue)) : ℕ :=
  let limit := min rows.length 25
  let scored := (List.range limit).map (fun i => (i, headerRowScore (rows.getD i [])))
  (scored.foldl
    (fun best cur => if (cur.2 : ℤ) > best.2 then (cur.1, (cur.2 : ℤ)) else best)
    (0, (-1 : ℤ))).1

/-- `ColumnMeta` from the source. -/
structure ColumnMeta where
  original : String
  normalized : String
  index : ℕ
  isGross : Bool
  canonical : Option CanonicalKey
deriving DecidableEq

/-- `buildColumnMeta` from the source. -/
def buildColumnMeta (headers : List CellValue) : List ColumnMeta :=
  (List.range headers.length).map fun index =>
    let header := headers.getD index CellValue.vnull
    let normalized := normalizeHeader header
    { original := headerString header
      normalized := normalized
      index := index
      isGross := strContains normalized "gross"
      canonical := none }

/-- Whether a rule's patterns match a normalized header. -/
def ruleMatches (rule : HeaderRule) (normalized : String) : Bool :=
  rule.patterns.any (fun pattern => rxTest pattern normalized)

/-- One rule applied to one column: skip already-assigned columns, skip gross
columns unless the rule allows gross, otherwise assign on pattern match. -/
def stepCol (rule : HeaderRule) (column : ColumnMeta) : ColumnMeta :=
  if column.canonical.isSome then column
  else if !rule.allowGross && column.isGross then column
  else if ruleMatches rule column.normalized then { column with canonical := some rule.key }
  else column

/-- Candidate test of the net-sales fallback pass. -/
def fallbackCond (column : ColumnMeta) : Bool :=
  if column.isGross || column.canonical.isSome then false
  else if !(strContains column.normalized "sales") then false
  else if strContains column.normalized "tax" || strContains column.normalized "discount"
      || strContains column.normalized "void" || strContains column.normalized "refund"
      || strContains column.normalized "credit" then false
  else true

/-- `assignCanonicalKeys` from the source: the ordered rule pass followed by
the net-sales fallback.  The source mutates the array in place; the model
returns the updated column list. -/
def assignCanonicalKeys (meta : List ColumnMeta) : List ColumnMeta :=
  let meta := HEADER_RULES.foldl (fun m rule => m.map (stepCol rule)) meta
  let hasNetSales := meta.any (fun column => column.canonical = some CanonicalKey.net_sales)
  if hasNetSales then meta
  else
    match meta.findIdx? fallbackCond with
    | some i =>
      match meta.get? i with
      | some column => meta.set i { column with canonical := some CanonicalKey.net_sales }
      | none => meta
    | none => meta

/-- `detectDatasetType` from the source. -/
def detectDatasetType (presentKeys : List CanonicalKey) : DatasetType :=
  let hasNet := presentKeys.contains CanonicalKey.net_sales
  let hasCategory := presentKeys.contains CanonicalKey.category
  let hasItem := presentKeys.contains CanonicalKey.item
  let hasDate := presentKeys.contains CanonicalKey.date
  let hasLabor := presentKeys.contains CanonicalKey.labor_cost
    || presentKeys.contains CanonicalKey.labor_hours
    || presentKeys.contains CanonicalKey.labor_percent
  let hasTips := presentKeys.contains CanonicalKey.tips
  if hasLabor && !hasNet then DatasetType.labor
  else if hasLabor && hasNet then DatasetType.labor
  else if hasNet && hasItem then DatasetType.item_sales
  else if hasNet && hasCategory then DatasetType.category_rollup
  else if hasNet && hasDate then DatasetType.daily_sales
  else if hasTips && !hasNet then DatasetType.tips
  else if hasNet then DatasetType.general_sales
  else if hasTips then DatasetType.tips
  else DatasetType.unknown

/-!  Insertion-ordered association lists model JS `Map` (string keys):
`mapGet` is `Map.get`, `mapSet` is `Map.set` (update in place when the key
exists, append otherwise). -/

/-- JS `Map.get`. -/
def mapGet {κ ν : Type} [DecidableEq κ] (m : List (κ × ν)) (k : κ) : Option ν :=
  match m with
  | [] => none
  | (k', v) :: rest => if k' = k then some v else mapGet rest k

/-- JS `Map.set`: overwrite in place, else append (insertion order kept). -/
def mapSet {κ ν : Type} [DecidableEq κ] (m : List (κ × ν)) (k : κ) (v : ν) : List (κ × ν) :=
  match m with
  | [] => [(k, v)]
  | (k', v') :: rest => if k' = k then (k', v) :: rest else (k', v') :: mapSet rest k v

/-- JS `Set.add` on an insertion-ordered duplicate-free list. -/
def setAdd {κ : Type} [DecidableEq κ] (s : List κ) (k : κ) : List κ :=
  if s.contains k then s else s ++ [k]

/-- Keys of an association list. -/
def keysOf {κ ν : Type} (m : List (κ × ν)) : List κ :=
  m.map Prod.fst

/-- Total of a category map's values. -/
def sumValues (m : List (String × JSNum)) : JSNum :=
  m.foldr (fun kv acc => JSNum.add kv.2 acc) (JSNum.fin 0)

/-- Model of the string-keyed date parse performed by `new Date(str)` /
`toISOString().slice(0, 10)`: ISO `YYYY-MM-DD` strings (the only format whose
behaviour is environment-independent and the only one the claims exercise)
parse to themselves; everything else is treated as unparsable. -/
def jsDateParse (s : String) : Option String :=
  let l := s.toList
  match l with
  | [y1, y2, y3, y4, '-', m1, m2, '-', d1, d2] =>
    if [y1, y2, y3, y4, m1, m2, d1, d2].all Char.isDigit then some s else none
  | _ => none

/-- `normalizeDateCell` from the source (`Date` instances are outside the
model): null for null/undefined or blank strings, the ISO day on successful
parse, the trimmed string verbatim on parse failure. -/
def normalizeDateCell (value : CellValue) : Option String :=
  match value with
  | CellValue.vnull => none
  | v =>
    let str := jsTrim (cellString v)
    if str.length = 0 then none
    else
      match jsDateParse str with
      | some iso => some iso
      | none => some str

/-- `DailyTotals` from the source. -/
structure DailyTotals where
  netSales : JSNum
  guests : JSNum
  tips : JSNum
deriving DecidableEq

/-- `NormalizedRow` from the source. -/
structure NormalizedRow where
  date : Option String
  category : Option String
  item : Option String
  net_sales : Option JSNum
  guests : Option JSNum
  tips : Option JSNum
  labor_cost : Option JSNum
  labor_hours : Option JSNum
  labor_percent : Option JSNum
deriving DecidableEq

/-- The `metrics` accumulator of `parseDataset` / `combineDatasets`. -/
structure FileMetrics where
  netSales : JSNum
  guests : JSNum
  tips : JSNum
  laborCost : JSNum
  laborHours : JSNum
  laborPercentSamples : List JSNum
  categories : List (String × JSNum)
  daily : List (String × DailyTotals)
deriving DecidableEq

/-- Fresh all-zero metrics. -/
def initMetrics : FileMetrics :=
  { netSales := JSNum.fin 0, guests := JSNum.fin 0, tips := JSNum.fin 0
    laborCost := JSNum.fin 0, laborHours := JSNum.fin 0
    laborPercentSamples := [], categories := [], daily := [] }

/-- `ParsedFileData` from the source. -/
structure ParsedFileData where
  fileName : String
  datasetType : DatasetType
  headerMeta : List ColumnMeta
  rowCount : ℕ
  presentKeys : List CanonicalKey
  normalizedSample : List NormalizedRow
  metrics : FileMetrics
deriving DecidableEq

/-- One step of the `indexByKey` / `presentKeys` construction inside
`parseDataset`: skip unclassified columns and keys already seen, otherwise
record the column's index and the key. -/
def buildIndexStep (acc : List (CanonicalKey × ℕ) × List CanonicalKey)
    (column : ColumnMeta) : List (CanonicalKey × ℕ) × List CanonicalKey :=
  match column.canonical with
  | none => acc
  | some key =>
    match mapGet acc.1 key with
    | some _ => acc
    | none => (mapSet acc.1 key column.index, acc.2 ++ [key])

/-- The `indexByKey` / `presentKeys` construction inside `parseDataset`:
walk the classified columns, record the first index per canonical key. -/
def buildIndexByKey (meta : List ColumnMeta) :
    List (CanonicalKey × ℕ) × List CanonicalKey :=
  meta.foldl buildIndexStep ([], [])

/-- `getNumeric` for one row (absent role ⟶ null; out-of-range cell access
yields JS `undefined`, i.e. `vnull`). -/
def getNumeric (indexByKey : List (CanonicalKey × ℕ)) (row : List CellValue)
    (key : CanonicalKey) : Option JSNum :=
  match mapGet indexByKey key with
  | none => none
  | some idx => parseNumeric (row.getD idx CellValue.vnull)

/-- `getText` for one row. -/
def getText (indexByKey : List (CanonicalKey × ℕ)) (row : List CellValue)
    (key : CanonicalKey) : Option String :=
  match mapGet indexByKey key with
  | none => none
  | some idx => normalizeTextCell (row.getD idx CellValue.vnull)

/-- `getDate` for one row. -/
def getDate (indexByKey : List (CanonicalKey × ℕ)) (row : List CellValue)
    (key : CanonicalKey) : Option String :=
  match mapGet indexByKey key with
  | none => none
  | some idx => normalizeDateCell (row.getD idx CellValue.vnull)

/-- The `NormalizedRow` extracted from one data row. -/
def normalizeRow (indexByKey : List (CanonicalKey × ℕ)) (row : List CellValue) :
    NormalizedRow :=
  { date := getDate indexByKey row CanonicalKey.date
    category := getText indexByKey row CanonicalKey.category
    item := getText indexByKey row CanonicalKey.item
    net_sales := getNumeric indexByKey row CanonicalKey.net_sales
    guests := getNumeric indexByKey row CanonicalKey.guests
    tips := getNumeric indexByKey row CanonicalKey.tips
    labor_cost := getNumeric indexByKey row CanonicalKey.labor_cost
    labor_hours := getNumeric indexByKey row CanonicalKey.labor_hours
    labor_percent := getNumeric indexByKey row CanonicalKey.labor_percent }

/-- Add an optional value into a running JS sum (`if (x !== null) acc += x`). -/
def addOpt (acc : JSNum) (x : Option JSNum) : JSNum :=
  match x with
  | none => acc
  | some v => JSNum.add acc v

/-- The per-row metric accumulation of `parseDataset`. -/
def accumRow (metrics : FileMetrics) (r : NormalizedRow) : FileMetrics :=
  let metrics := { metrics with netSales := addOpt metrics.netSales r.net_sales }
  let metrics := { metrics with guests := addOpt metrics.guests r.guests }
  let metrics := { metrics with tips := addOpt metrics.tips r.tips }
  let metrics := { metrics with laborCost := addOpt metrics.laborCost r.labor_cost }
  let metrics := { metrics with laborHours := addOpt metrics.laborHours r.labor_hours }
  let metrics :=
    match r.labor_percent with
    | none => metrics
    | some v => { metrics with laborPercentSamples := metrics.laborPercentSamples ++ [v] }
  let metrics :=
    match r.category, r.net_sales with
    | some category, some netSales =>
      let current := (mapGet metrics.categories category).getD (JSNum.fin 0)
      { metrics with categories := mapSet metrics.categories category (JSNum.add current netSales) }
    | _, _ => metrics
  match r.date with
  | none => metrics
  | some date =>
    let current := (mapGet metrics.daily date).getD
      { netSales := JSNum.fin 0, guests := JSNum.fin 0, tips := JSNum.fin 0 }
    let current := { current with netSales := addOpt current.netSales r.net_sales }
    let current := { current with guests := addOpt current.guests r.guests }
    let current := { current with tips := addOpt current.tips r.tips }
    { metrics with daily := mapSet metrics.daily date current }

/-- `Object.values(normalizedRow).some(v => v !== null)`. -/
def hasAnyValue (r : NormalizedRow) : Bool :=
  r.date.isSome || r.category.isSome || r.item.isSome || r.net_sales.isSome
    || r.guests.isSome || r.tips.isSome || r.labor_cost.isSome
    || r.labor_hours.isSome || r.labor_percent.isSome

/-- One iteration of the row loop in `parseDataset`. -/
def processRow (indexByKey : List (CanonicalKey × ℕ))
    (st : FileMetrics × List NormalizedRow) (row : List CellValue) :
    FileMetrics × List NormalizedRow :=
  if isMeaningfulRow row then
    let nr := normalizeRow indexByKey row
    ( accumRow st.1 nr
    , if hasAnyValue nr && st.2.length < MAX_SAMPLE_ROWS then st.2 ++ [nr] else st.2 )
  else st

/-- `parseDataset` from the source. -/
def parseDataset (fileName : String) (headers : List CellValue)
    (dataRows : List (List CellValue)) : ParsedFileData :=
  let headerMeta := assignCanonicalKeys (buildColumnMeta headers)
  let indexed := buildIndexByKey headerMeta
  let indexByKey := indexed.1
  let presentKeys := indexed.2
  let datasetType := detectDatasetType presentKeys
  let st := dataRows.foldl (processRow indexByKey) (initMetrics, [])
  { fileName := fileName
    datasetType := datasetType
    headerMeta := headerMeta
    rowCount := dataRows.length
    presentKeys := presentKeys
    normalizedSample := st.2
    metrics := st.1 }

/-- `DatasetWithStorage` from the source. -/
structure DatasetWithStorage extends ParsedFileData where
  storageFileName : String
  publicUrl : String
  contentType : String
deriving DecidableEq

/-- `CombinedDataset` from the source. -/
structure CombinedDataset where
  datasetType : DatasetType
  metrics : FileMetrics
  keys : List CanonicalKey
  files : List DatasetWithStorage
  sampleRows : List NormalizedRow
deriving DecidableEq

/-- Merge one file's category map into the combined accumulator. -/
def mergeCategories (acc : List (String × JSNum)) (cats : List (String × JSNum)) :
    List (String × JSNum) :=
  cats.foldl
    (fun acc kv =>
      let current := (mapGet acc kv.1).getD (JSNum.fin 0)
      mapSet acc kv.1 (JSNum.add current kv.2))
    acc

/-- Merge one file's daily map into the combined accumulator. -/
def mergeDaily (acc : List (String × DailyTotals)) (daily : List (String × DailyTotals)) :
    List (String × DailyTotals) :=
  daily.foldl
    (fun acc kv =>
      let current := (mapGet acc kv.1).getD
        { netSales := JSNum.fin 0, guests := JSNum.fin 0, tips := JSNum.fin 0 }
      mapSet acc kv.1
        { netSales := JSNum.add current.netSales kv.2.netSales
          guests := JSNum.add current.guests kv.2.guests
          tips := JSNum.add current.tips kv.2.tips })
    acc

/-- Take sample rows from one file up to the shared cap. -/
def takeSamples (acc : List NormalizedRow) (rows : List NormalizedRow) :
    List NormalizedRow :=
  acc ++ rows.take (MAX_SAMPLE_ROWS - acc.length)

/-- The body of the `for (const dataset of datasets)` loop in
`combineDatasets`: running key set, metric sums and sample list. -/
def combineStep (st : List CanonicalKey × FileMetrics × List NormalizedRow)
    (dataset : DatasetWithStorage) :
    List CanonicalKey × FileMetrics × List NormalizedRow :=
  let combinedKeys := dataset.presentKeys.foldl setAdd st.1
  let m := st.2.1
  let m := { m with netSales := JSNum.add m.netSales dataset.metrics.netSales }
  let m := { m with guests := JSNum.add m.guests dataset.metrics.guests }
  let m := { m with tips := JSNum.add m.tips dataset.metrics.tips }
  let m := { m with laborCost := JSNum.add m.laborCost dataset.metrics.laborCost }
  let m := { m with laborHours := JSNum.add m.laborHours dataset.metrics.laborHours }
  let m := { m with laborPercentSamples :=
    m.laborPercentSamples ++ dataset.metrics.laborPercentSamples }
  let m := { m with categories := mergeCategories m.categories dataset.metrics.categories }
  let m := { m with daily := mergeDaily m.daily dataset.metrics.daily }
  (combinedKeys, m, takeSamples st.2.2 dataset.normalizedSample)

/-- `combineDatasets` from the source.  The source reads `datasets[0]` for the
dataset type; the upstream caller only ever passes non-empty groups, and the
model defaults to `unknown` on the impossible empty input. -/
def combineDatasets (datasets : List DatasetWithStorage) : CombinedDataset :=
  let st := datasets.foldl combineStep ([], initMetrics, [])
  { datasetType := (datasets.head?.map (fun d => d.datasetType)).getD DatasetType.unknown
    metrics := st.2.1
    keys := st.1
    files := datasets
    sampleRows := st.2.2 }

/-- `pickDatasetWithKey` from the source. -/
def pickDatasetWithKey (combined : List (DatasetType × CombinedDataset))
    (priorities : List DatasetType) (key : CanonicalKey) : Option CombinedDataset :=
  match priorities with
  | [] => none
  | t :: rest =>
    match mapGet combined t with
    | some dataset =>
      if dataset.keys.contains key then some dataset
      else pickDatasetWithKey combined rest key
    | none => pickDatasetWithKey combined rest key

/-- The `groupedByType` map built in `serve`. -/
def groupedByType (parsedDatasets : List DatasetWithStorage) :
    List (DatasetType × List DatasetWithStorage) :=
  parsedDatasets.foldl
    (fun m dataset =>
      let group := (mapGet m dataset.datasetType).getD []
      mapSet m dataset.datasetType (group ++ [dataset]))
    []

/-- The `combinedByType` map built in `serve` (`forEach` preserves insertion
order, so it is a map over the grouped entries). -/
def combinedByType (parsedDatasets : List DatasetWithStorage) :
    List (DatasetType × CombinedDataset) :=
  (groupedByType parsedDatasets).map (fun g => (g.1, combineDatasets g.2))

/-- `netDataset` from `serve`. -/
def netDataset (combined : List (DatasetType × CombinedDataset)) : Option CombinedDataset :=
  pickDatasetWithKey combined
    [DatasetType.item_sales, DatasetType.daily_sales, DatasetType.category_rollup,
      DatasetType.general_sales]
    CanonicalKey.net_sales

/-- `dailyDataset` from `serve`. -/
def dailyDataset (combined : List (DatasetType × CombinedDataset)) : Option CombinedDataset :=
  pickDatasetWithKey combined
    [DatasetType.daily_sales, DatasetType.item_sales, DatasetType.general_sales]
    CanonicalKey.date

/-- `averagePPA` from `serve`: net sales over guests of the very dataset that
sourced net sales, guarded by guest presence and positivity. -/
def averagePPA (combined : List (DatasetType × CombinedDataset)) : Option JSNum :=
  match netDataset combined with
  | some d =>
    if d.keys.contains CanonicalKey.guests && JSNum.gt d.metrics.guests (JSNum.fin 0) then
      some (JSNum.div d.metrics.netSales d.metrics.guests)
    else none
  | none => none

/-- `formatNumber` from the source: `'N/A'` (modelled as `none`) for null or
non-finite values, otherwise rounded to `decimals` places with JS
`Math.round` (half away from zero toward +inf). -/
def formatNumber (value : Option JSNum) (decimals : ℕ) : Option JSNum :=
  match value with
  | some (JSNum.fin q) =>
    some (JSNum.fin (((⌊q * (10 : ℚ) ^ decimals + 1 / 2⌋ : ℤ) : ℚ) / (10 : ℚ) ^ decimals))
  | _ => none

/-- JS `Number(x)` applied to `formatNumber`'s result: `'N/A'` coerces to NaN. -/
def numberOfFormatted (value : Option JSNum) : JSNum :=
  match value with
  | some v => v
  | none => JSNum.nan

/-- Ascending insertion by key (modelling the `sort` comparator on the ISO
date strings of `dailyEntries`). -/
def insertByKey (e : String × DailyTotals) :
    List (String × DailyTotals) → List (String × DailyTotals)
  | [] => [e]
  | f :: rest => if e.1 ≤ f.1 then e :: f :: rest else f :: insertByKey e rest

/-- Sort the daily entries ascending by date string. -/
def sortDailyEntries (l : List (String × DailyTotals)) : List (String × DailyTotals) :=
  l.foldr insertByKey []

/-- `dailyEntries` from `serve`. -/
def dailyEntries (combined : List (DatasetType × CombinedDataset)) :
    List (String × DailyTotals) :=
  match dailyDataset combined with
  | some d => sortDailyEntries d.metrics.daily
  | none => []

/-- `ppaTrendData` from `serve`: drop dates failing the `guests <= 0` guard,
divide, format, keep the non-null entries. -/
def ppaTrendData (combined : List (DatasetType × CombinedDataset)) :
    List (String × JSNum) :=
  (dailyEntries combined).filterMap
    (fun e =>
      if JSNum.le e.2.guests (JSNum.fin 0) then none
      else some (e.1, numberOfFormatted
        (formatNumber (some (JSNum.div e.2.netSales e.2.guests)) 2)))

/-!  Model of the per-request file loop in `serve`.  Authentication, form
validation, object storage and persistence are external collaborators; the
loop body keeps exactly the structural steps of the source: row extraction
(which throws on unreadable workbooks), the empty-file check, header-row
detection, the empty-header check, and `parseDataset`.  A thrown error is an
`Except.error`, caught by the surrounding handler which answers HTTP 500 and
performs no database insert. -/

/-- One uploaded file as seen by the loop: its name and the result of the
row-extraction collaborator (`none` models `XLSX.read` throwing). -/
structure FileUpload where
  name : String
  extraction : Option (List (List CellValue))

/-- The body of the `for (const file of incomingFiles)` loop up to (and
modelling away) the storage upload, which only fails on collaborator errors
outside this model. -/
def processFile (f : FileUpload) : Except String ParsedFileData :=
  match f.extraction with
  | none =>
    Except.error "Unable to parse uploaded file. Please ensure it is a valid CSV or Excel file."
  | some rows =>
    if rows.isEmpty then Except.error (f.name ++ " appears to be empty")
    else
      let headerRowIndex := detectHeaderRow rows
      let headers := rows.getD headerRowIndex []
      let dataRows := (rows.drop (headerRowIndex + 1)).filter isMeaningfulRow
      if headers.isEmpty then Except.error ("Unable to determine headers for " ++ f.name)
      else Except.ok (parseDataset f.name headers dataRows)

/-- The sequential loop: the first thrown error aborts everything after it. -/
def processFiles : List FileUpload → Except String (List ParsedFileData)
  | [] => Except.ok []
  | f :: rest =>
    match processFile f with
    | Except.error e => Except.error e
    | Except.ok parsed =>
      match processFiles rest with
      | Except.error e => Except.error e
      | Except.ok others => Except.ok (parsed :: others)

/-- Attach the (collaborator-supplied) storage metadata; its contents are
irrelevant to every claim. -/
def withStorage (p : ParsedFileData) : DatasetWithStorage :=
  { toParsedFileData := p, storageFileName := p.fileName, publicUrl := ""
    contentType := "application/octet-stream" }

/-- The persisted report record, reduced to the fields the claims mention. -/
structure ReportRecord where
  fileNames : List String
  ppa : Option JSNum
deriving DecidableEq

/-- Outcome of one upload request: HTTP status plus the report row inserted
into the database (none when the handler caught an error). -/
structure UploadResponse where
  status : ℕ
  persistedReport : Option ReportRecord
deriving DecidableEq

/-- The request handler around the loop: any throw is caught, answered with
status 500, and nothing is inserted; on success the combined report is
persisted. -/
def handleUpload (files : List FileUpload) : UploadResponse :=
  match processFiles files with
  | Except.error _ => { status := 500, persistedReport := none }
  | Except.ok ds =>
    let combined := combinedByType (ds.map withStorage)
    { status := 200
      persistedReport := some
        { fileNames := ds.map (fun p => p.fileName)
          ppa := formatNumber (averagePPA combined) 2 } }

/-- Structural parse failure of one file, as enumerated by the claim:
unreadable workbook, zero extracted rows, or an empty detected header row. -/
def structuralFailure (f : FileUpload) : Bool :=
  match f.extraction with
  | none => true
  | some rows => rows.isEmpty || (rows.getD (detectHeaderRow rows) []).isEmpty

/-!  Spec-side definitions.  These are written from the wording of the spec /
claims, to be compared with the definitions transcribed from the source. -/

/-- The §4.3 decision table exactly as the spec tabulates it, evaluated
top-to-bottom with first match winning. -/
def specDatasetTable (hasLabor hasNet hasItem hasCategory hasDate hasTips : Bool) :
    DatasetType :=
  if hasLabor then DatasetType.labor
  else if hasNet && hasItem then DatasetType.item_sales
  else if hasNet && hasCategory then DatasetType.category_rollup
  else if hasNet && hasDate then DatasetType.daily_sales
  else if hasTips && !hasNet then DatasetType.tips
  else if hasNet then DatasetType.general_sales
  else if hasTips then DatasetType.tips
  else DatasetType.unknown

/-- `parseNumeric` as the (amended) claim words it: null for null/undefined;
a native number passes through unless it is NaN; text is stripped of `$`,
thousands-separator commas, `%` and whitespace, negated when the cleaned
text is wrapped in parentheses, parsed as a float, with null on empty input
or parse failure. -/
def specParseNumeric (val : CellValue) : Option JSNum :=
  match val with
  | CellValue.vnull => none
  | CellValue.vnum JSNum.nan => none
  | CellValue.vnum n => some n
  | CellValue.vstr s =>
    if (jsTrim s).length = 0 then none
    else
      let cleaned := (jsTrim s).toList.filter
        (fun c => !(c = '$' || c = ',' || c = '%' || isJsSpace c))
      let wrapped := cleaned.head? = some '(' && cleaned.getLast? = some ')'
      let core := if wrapped then (cleaned.drop 1).dropLast else cleaned
      match jsParseFloat (String.mk core) with
      | JSNum.nan => none
      | num => some (if wrapped then num.neg else num)

/-- Eligibility of a column for a rule: the gross guard plus a pattern hit. -/
def ruleEligible (rule : HeaderRule) (column : ColumnMeta) : Bool :=
  (rule.allowGross || !column.isGross) && ruleMatches rule column.normalized

/-- The first rule (in priority order) a column is eligible for — the role
the ordered pattern pass gives that column. -/
def firstRuleKey (column : ColumnMeta) : Option CanonicalKey :=
  (HEADER_RULES.find? (fun rule => ruleEligible rule column)).map (fun r => r.key)

/-- Whether a normalized header matches some `net_sales` rule pattern under
the gross guard. -/
def netSalesEligible (column : ColumnMeta) : Bool :=
  (!column.isGross) && ruleMatches netSalesHeaderRule column.normalized

/-- Whether the `NormalizedRow` field belonging to a canonical key is null. -/
def rowFieldIsNone (r : NormalizedRow) : CanonicalKey → Bool
  | CanonicalKey.net_sales => r.net_sales.isNone
  | CanonicalKey.guests => r.guests.isNone
  | CanonicalKey.tips => r.tips.isNone
  | CanonicalKey.labor_cost => r.labor_cost.isNone
  | CanonicalKey.labor_hours => r.labor_hours.isNone
  | CanonicalKey.labor_percent => r.labor_percent.isNone
  | CanonicalKey.date => r.date.isNone
  | CanonicalKey.category => r.category.isNone
  | CanonicalKey.item => r.item.isNone

/-- The `FileMetrics` component fed by a canonical key is still at its
initial (empty) value. -/
def metricAbsent (m : FileMetrics) : CanonicalKey → Prop
  | CanonicalKey.net_sales => m.netSales = JSNum.fin 0
  | CanonicalKey.guests => m.guests = JSNum.fin 0
  | CanonicalKey.tips => m.tips = JSNum.fin 0
  | CanonicalKey.labor_cost => m.laborCost = JSNum.fin 0
  | CanonicalKey.labor_hours => m.laborHours = JSNum.fin 0
  | CanonicalKey.labor_percent => m.laborPercentSamples = []
  | CanonicalKey.date => m.daily = []
  | CanonicalKey.category => m.categories = []
  | CanonicalKey.item => True

theorem JSNum.add_comm (a b : JSNum) : JSNum.add a b = JSNum.add b a := by
  cases a <;> cases b <;> simp [JSNum.add, Rat.add_comm]

theorem JSNum.zero_add (a : JSNum) : JSNum.add (JSNum.fin 0) a = a := by
  cases a <;> simp [JSNum.add]

theorem JSNum.add_zero (a : JSNum) : JSNum.add a (JSNum.fin 0) = a := by
  cases a <;> simp [JSNum.add]

theorem JSNum.add_assoc (a b c : JSNum) :
    JSNum.add (JSNum.add a b) c = JSNum.add a (JSNum.add b c) := by
  cases a <;> cases b <;> cases c <;> simp [JSNum.add, Rat.add_assoc]

/-!  Helper lemmas about the JS `Map` model. -/

theorem keysOf_nil {κ ν : Type} : keysOf ([] : List (κ × ν)) = [] := rfl

theorem keysOf_cons {κ ν : Type} (hd : κ × ν) (tl : List (κ × ν)) :
    keysOf (hd :: tl) = hd.1 :: keysOf tl := rfl

theorem mapGet_cons {κ ν : Type} [DecidableEq κ] (a : κ) (b : ν) (tl : List (κ × ν)) (k : κ) :
    mapGet ((a, b) :: tl) k = if a = k then some b else mapGet tl k := rfl

theorem mapSet_cons {κ ν : Type} [DecidableEq κ] (a : κ) (b : ν) (tl : List (κ × ν))
    (k : κ) (v : ν) :
    mapSet ((a, b) :: tl) k v
      = if a = k then (a, v) :: tl else (a, b) :: mapSet tl k v := rfl

theorem sumValues_nil : sumValues [] = JSNum.fin 0 := rfl

theorem sumValues_cons (hd : String × JSNum) (tl : List (String × JSNum)) :
    sumValues (hd :: tl) = JSNum.add hd.2 (sumValues tl) := rfl

theorem mapGet_set_self {κ ν : Type} [DecidableEq κ] (m : List (κ × ν)) (k : κ) (v : ν) :
    mapGet (mapSet m k v) k = some v := by
  induction m with
  | nil => simp [mapGet, mapSet]
  | cons hd tl ih =>
    obtain ⟨a, b⟩ := hd
    rw [mapSet_cons]
    by_cases h : a = k
    · simp [mapGet_cons, h]
    · rw [if_neg h, mapGet_cons, if_neg h]
      exact ih

theorem mapGet_set_ne {κ ν : Type} [DecidableEq κ] (m : List (κ × ν)) (k k' : κ) (v : ν)
    (h : k ≠ k') : mapGet (mapSet m k v) k' = mapGet m k' := by
  induction m with
  | nil => simp [mapGet, mapSet, h]
  | cons hd tl ih =>
    obtain ⟨a, b⟩ := hd
    rw [mapSet_cons]
    by_cases hh : a = k
    · subst hh
      rw [if_pos rfl, mapGet_cons, mapGet_cons, if_neg h, if_neg h]
    · rw [if_neg hh, mapGet_cons, mapGet_cons]
      by_cases h2 : a = k'
      · rw [if_pos h2, if_pos h2]
      · rw [if_neg h2, if_neg h2]
        exact ih

theorem mapGet_none_iff {κ ν : Type} [DecidableEq κ] (m : List (κ × ν)) (k : κ) :
    mapGet m k = none ↔ k ∉ keysOf m := by
  induction m with
  | nil => simp [mapGet, keysOf_nil]
  | cons hd tl ih =>
    obtain ⟨a, b⟩ := hd
    rw [mapGet_cons, keysOf_cons]
    by_cases h : a = k
    · subst h
      simp
    · rw [if_neg h]
      simp only [List.mem_cons, not_or]
      constructor
      · intro hn
        exact ⟨fun e => h e.symm, (ih.mp hn)⟩
      · intro ⟨_, h2⟩
        exact ih.mpr h2

theorem mapSet_append_of_notMem {κ ν : Type} [DecidableEq κ] (m : List (κ × ν)) (k : κ)
    (v : ν) (h : k ∉ keysOf m) : mapSet m k v = m ++ [(k, v)] := by
  induction m with
  | nil => simp [mapSet]
  | cons hd tl ih =>
    obtain ⟨a, b⟩ := hd
    rw [keysOf_cons, List.mem_cons, not_or] at h
    rw [mapSet_cons, if_neg (fun e => h.1 e.symm)]
    rw [ih h.2]
    rfl

theorem keysOf_mapSet_of_mem {κ ν : Type} [DecidableEq κ] (m : List (κ × ν)) (k : κ) (v : ν)
    (h : k ∈ keysOf m) : keysOf (mapSet m k v) = keysOf m := by
  induction m with
  | nil => simp [keysOf_nil] at h
  | cons hd tl ih =>
    obtain ⟨a, b⟩ := hd
    rw [mapSet_cons]
    by_cases hh : a = k
    · rw [if_pos hh, keysOf_cons, keysOf_cons]
    · rw [if_neg hh, keysOf_cons, keysOf_cons]
      rw [keysOf_cons, List.mem_cons] at h
      rcases h with h | h
      · exact absurd h.symm hh
      · rw [ih h]

theorem keysOf_mapSet_nodup {κ ν : Type} [DecidableEq κ] (m : List (κ × ν)) (k : κ) (v : ν)
    (h : (keysOf m).Nodup) : (keysOf (mapSet m k v)).Nodup := by
  by_cases hk : k ∈ keysOf m
  · rw [keysOf_mapSet_of_mem m k v hk]
    exact h
  · rw [mapSet_append_of_notMem m k v hk]
    have : keysOf (m ++ [(k, v)]) = keysOf m ++ [k] := by
      simp [keysOf]
    rw [this]
    exact List.Nodup.append h (List.nodup_singleton k)
      (by simpa [List.disjoint_singleton] using hk)

theorem sumValues_mapSet_add (m : List (String × JSNum)) (k : String) (v : JSNum) :
    sumValues (mapSet m k (JSNum.add ((mapGet m k).getD (JSNum.fin 0)) v))
      = JSNum.add (sumValues m) v := by
  induction m with
  | nil =>
    simp [sumValues, mapSet, mapGet, JSNum.zero_add, JSNum.add_zero]
  | cons hd tl ih =>
    obtain ⟨a, b⟩ := hd
    by_cases h : a = k
    · subst h
      rw [mapGet_cons, if_pos rfl, Option.getD_some, mapSet_cons, if_pos rfl]
      rw [sumValues_cons, sumValues_cons]
      rw [JSNum.add_assoc, JSNum.add_comm v (sumValues tl), ← JSNum.add_assoc]
    · rw [mapGet_cons, if_neg h, mapSet_cons, if_neg h]
      rw [sumValues_cons, sumValues_cons, ih]
      rw [JSNum.add_assoc]

/-!  Merge lemmas for `combineDatasets`. -/

theorem sumValues_mergeCategories (acc cats : List (String × JSNum)) :
    sumValues (mergeCategories acc cats) = JSNum.add (sumValues acc) (sumValues cats) := by
  induction cats generalizing acc with
  | nil => simp [mergeCategories, sumValues_nil, JSNum.add_zero]
  | cons hd tl ih =>
    obtain ⟨k, v⟩ := hd
    have step : mergeCategories acc ((k, v) :: tl)
        = mergeCategories (mapSet acc k (JSNum.add ((mapGet acc k).getD (JSNum.fin 0)) v)) tl := by
      simp [mergeCategories]
    rw [step, ih, sumValues_mapSet_add, sumValues_cons, JSNum.add_assoc]

theorem mergeCategories_of_disjoint (acc cats : List (String × JSNum))
    (hdis : ∀ k ∈ keysOf cats, k ∉ keysOf acc) (hnd : (keysOf cats).Nodup) :
    mergeCategories acc cats = acc ++ cats := by
  induction cats generalizing acc with
  | nil => simp [mergeCategories]
  | cons hd tl ih =>
    obtain ⟨k, v⟩ := hd
    have hk : k ∉ keysOf acc := hdis k (by rw [keysOf_cons]; exact List.mem_cons_self k _)
    have hget : mapGet acc k = none := (mapGet_none_iff acc k).mpr hk
    have step : mergeCategories acc ((k, v) :: tl)
        = mergeCategories (mapSet acc k (JSNum.add ((mapGet acc k).getD (JSNum.fin 0)) v)) tl := by
      simp [mergeCategories]
    rw [step, hget]
    simp only [Option.getD_none, JSNum.zero_add]
    rw [mapSet_append_of_notMem acc k v hk]
    rw [keysOf_cons] at hnd
    have hnd' := List.Nodup.of_cons hnd
    have hknotl : k ∉ keysOf tl := by
      intro hmem
      exact (List.nodup_cons.mp hnd).1 hmem
    rw [ih (acc ++ [(k, v)])
      (fun k' hk' => by
        have hne : k' ≠ k := fun e => hknotl (e ▸ hk')
        have : keysOf (acc ++ [(k, v)]) = keysOf acc ++ [k] := by simp [keysOf]
        rw [this, List.mem_append, List.mem_singleton]
        push_neg
        exact ⟨fun hmem => hdis k' (by rw [keysOf_cons]; exact List.mem_cons_of_mem _ hk') hmem, hne⟩)
      hnd']
    simp

theorem mergeDaily_of_disjoint (acc daily : List (String × DailyTotals))
    (hdis : ∀ k ∈ keysOf daily, k ∉ keysOf acc) (hnd : (keysOf daily).Nodup) :
    mergeDaily acc daily = acc ++ daily := by
  induction daily generalizing acc with
  | nil => simp [mergeDaily]
  | cons hd tl ih =>
    obtain ⟨k, v⟩ := hd
    have hk : k ∉ keysOf acc := hdis k (by rw [keysOf_cons]; exact List.mem_cons_self k _)
    have hget : mapGet acc k = none := (mapGet_none_iff acc k).mpr hk
    have step : mergeDaily acc ((k, v) :: tl)
        = mergeDaily (mapSet acc k
            { netSales := JSNum.add ((mapGet acc k).getD
                { netSales := JSNum.fin 0, guests := JSNum.fin 0, tips := JSNum.fin 0 }).netSales v.netSales
              guests := JSNum.add ((mapGet acc k).getD
                { netSales := JSNum.fin 0, guests := JSNum.fin 0, tips := JSNum.fin 0 }).guests v.guests
              tips := JSNum.add ((mapGet acc k).getD
                { netSales := JSNum.fin 0, guests := JSNum.fin 0, tips := JSNum.fin 0 }).tips v.tips }) tl := by
      simp [mergeDaily]
    rw [step, hget]
    simp only [Option.getD_none, JSNum.zero_add]
    rw [mapSet_append_of_notMem acc k _ hk]
    rw [keysOf_cons] at hnd
    have hnd' := List.Nodup.of_cons hnd
    have hknotl : k ∉ keysOf tl := (List.nodup_cons.mp hnd).1
    rw [ih (acc ++ [(k, _)])
      (fun k' hk' => by
        have hne : k' ≠ k := fun e => hknotl (e ▸ hk')
        have heq : keysOf (acc ++ [(k,
          { netSales := v.netSales, guests := v.guests, tips := v.tips })]) = keysOf acc ++ [k] := by
          simp [keysOf]
        rw [heq, List.mem_append, List.mem_singleton]
        push_neg
        exact ⟨fun hmem => hdis k' (by rw [keysOf_cons]; exact List.mem_cons_of_mem _ hk') hmem, hne⟩)
      hnd']
    simp

theorem setAdd_foldl_of_disjoint {κ : Type} [DecidableEq κ] (acc ks : List κ)
    (hdis : ∀ k ∈ ks, k ∉ acc) (hnd : ks.Nodup) :
    ks.foldl setAdd acc = acc ++ ks := by
  induction ks generalizing acc with
  | nil => simp
  | cons hd tl ih =>
    have hk : hd ∉ acc := hdis hd (List.mem_cons_self hd tl)
    have step : (hd :: tl).foldl setAdd acc = tl.foldl setAdd (setAdd acc hd) := rfl
    rw [step]
    have hset : setAdd acc hd = acc ++ [hd] := by
      simp [setAdd, List.elem_iff]
      intro hmem
      exact absurd hmem hk
    rw [hset]
    have hhdtl : hd ∉ tl := (List.nodup_cons.mp hnd).1
    rw [ih (acc ++ [hd])
      (fun k' hk' => by
        rw [List.mem_append, List.mem_singleton]
        push_neg
        exact ⟨fun hmem => hdis k' (List.mem_cons_of_mem _ hk') hmem,
          fun e => hhdtl (e ▸ hk')⟩)
      (List.Nodup.of_cons hnd)]
    simp

/-!  Lemmas about the `indexByKey` / `presentKeys` construction. -/

theorem buildIndexAux_inv (meta : List ColumnMeta)
    (acc : List (CanonicalKey × ℕ) × List CanonicalKey)
    (h1 : keysOf acc.1 = acc.2) (h2 : acc.2.Nodup) :
    keysOf (List.foldl buildIndexStep acc meta).1 = (List.foldl buildIndexStep acc meta).2
      ∧ (List.foldl buildIndexStep acc meta).2.Nodup := by
  induction meta generalizing acc with
  | nil => exact ⟨h1, h2⟩
  | cons column rest ih =>
    rw [List.foldl_cons]
    rcases hc : column.canonical with _ | key
    · have hstep : buildIndexStep acc column = acc := by simp [buildIndexStep, hc]
      rw [hstep]
      exact ih acc h1 h2
    · rcases hget : mapGet acc.1 key with _ | i
      · have hnotmem : key ∉ keysOf acc.1 := (mapGet_none_iff acc.1 key).mp hget
        have hstep : buildIndexStep acc column
            = (mapSet acc.1 key column.index, acc.2 ++ [key]) := by
          simp [buildIndexStep, hc, hget]
        rw [hstep]
        refine ih _ ?_ ?_
        · show keysOf (mapSet acc.1 key column.index) = acc.2 ++ [key]
          rw [mapSet_append_of_notMem acc.1 key column.index hnotmem]
          simp [keysOf, h1.symm]
        · show (acc.2 ++ [key]).Nodup
          exact List.Nodup.append h2 (List.nodup_singleton key)
            (by simpa [List.disjoint_singleton, ← h1] using hnotmem)
      · have hstep : buildIndexStep acc column = acc := by
          simp [buildIndexStep, hc, hget]
        rw [hstep]
        exact ih acc h1 h2

theorem buildIndexAux_get (meta : List ColumnMeta)
    (acc : List (CanonicalKey × ℕ) × List CanonicalKey) (k : CanonicalKey) :
    mapGet (List.foldl buildIndexStep acc meta).1 k =
      match mapGet acc.1 k with
      | some i => some i
      | none => (meta.find? (fun c => c.canonical == some k)).map (fun c => c.index) := by
  induction meta generalizing acc with
  | nil =>
    rcases h : mapGet acc.1 k with _ | i <;> simp [h]
  | cons column rest ih =>
    rw [List.foldl_cons]
    rcases hc : column.canonical with _ | key
    · have hstep : buildIndexStep acc column = acc := by simp [buildIndexStep, hc]
      rw [hstep, ih]
      have hfind : (List.find? (fun c => c.canonical == some k) (column :: rest))
          = List.find? (fun c => c.canonical == some k) rest := by
        rw [List.find?_cons]
        simp [hc]
      rw [hfind]
    · rcases hget : mapGet acc.1 key with _ | i
      · have hstep : buildIndexStep acc column
            = (mapSet acc.1 key column.index, acc.2 ++ [key]) := by
          simp [buildIndexStep, hc, hget]
        rw [hstep, ih]
        by_cases hk : key = k
        · subst hk
          rw [mapGet_set_self, hget]
          have hfind : (List.find? (fun c => c.canonical == some key) (column :: rest))
              = some column := by
            rw [List.find?_cons]
            simp [hc]
          rw [hfind]
          simp
        · rw [mapGet_set_ne acc.1 key k column.index hk]
          have hb : (key == k) = false := beq_eq_false_iff_ne.mpr hk
          have hfind : (List.find? (fun c => c.canonical == some k) (column :: rest))
              = List.find? (fun c => c.canonical == some k) rest := by
            rw [List.find?_cons]
            simp [hc, hb]
          rw [hfind]
      · have hstep : buildIndexStep acc column = acc := by
          simp [buildIndexStep, hc, hget]
        rw [hstep, ih]
        by_cases hk : key = k
        · subst hk
          rw [hget]
        · have hb : (key == k) = false := beq_eq_false_iff_ne.mpr hk
          have hfind : (List.find? (fun c => c.canonical == some k) (column :: rest))
              = List.find? (fun c => c.canonical == some k) rest := by
            rw [List.find?_cons]
            simp [hc, hb]
          rw [hfind]

theorem indexByKey_eq_find (meta : List ColumnMeta) (k : CanonicalKey) :
    mapGet (buildIndexByKey meta).1 k
      = (meta.find? (fun c => c.canonical == some k)).map (fun c => c.index) := by
  have h := buildIndexAux_get meta ([], []) k
  simpa [buildIndexByKey, mapGet] using h

theorem presentKeys_keysOf (meta : List ColumnMeta) :
    keysOf (buildIndexByKey meta).1 = (buildIndexByKey meta).2
      ∧ (buildIndexByKey meta).2.Nodup :=
  buildIndexAux_inv meta ([], []) rfl List.nodup_nil

theorem mem_presentKeys_iff (meta : List ColumnMeta) (k : CanonicalKey) :
    k ∈ (buildIndexByKey meta).2 ↔ mapGet (buildIndexByKey meta).1 k ≠ none := by
  rw [← (presentKeys_keysOf meta).1]
  constructor
  · intro h hn
    exact (mapGet_none_iff _ k).mp hn h
  · intro h
    by_contra hmem
    exact h ((mapGet_none_iff _ k).mpr hmem)

/-!  Lemmas about the classifier (`assignCanonicalKeys`). -/

theorem stepCol_preserves (rule : HeaderRule) (c : ColumnMeta) :
    (stepCol rule c).index = c.index ∧ (stepCol rule c).isGross = c.isGross
      ∧ (stepCol rule c).normalized = c.normalized
      ∧ (stepCol rule c).original = c.original := by
  unfold stepCol
  split
  · exact ⟨rfl, rfl, rfl, rfl⟩
  · split
    · exact ⟨rfl, rfl, rfl, rfl⟩
    · split
      · exact ⟨rfl, rfl, rfl, rfl⟩
      · exact ⟨rfl, rfl, rfl, rfl⟩

theorem foldl_map_stepCol (rules : List HeaderRule) (meta : List ColumnMeta) :
    rules.foldl (fun m rule => m.map (stepCol rule)) meta
      = meta.map (fun c => rules.foldl (fun col rule => stepCol rule col) c) := by
  induction rules generalizing meta with
  | nil => simp
  | cons r rest ih =>
    rw [List.foldl_cons, ih (meta.map (stepCol r)), List.map_map]
    rfl

theorem foldl_stepCol_of_isSome (rules : List HeaderRule) (c : ColumnMeta)
    (h : c.canonical.isSome) :
    rules.foldl (fun col rule => stepCol rule col) c = c := by
  induction rules with
  | nil => rfl
  | cons r rest ih =>
    rw [List.foldl_cons]
    have hstep : stepCol r c = c := by
      unfold stepCol
      rw [if_pos h]
    rw [hstep]
    exact ih

theorem stepCol_of_eligible (rule : HeaderRule) (c : ColumnMeta)
    (h : c.canonical = none) (he : ruleEligible rule c = true) :
    stepCol rule c = { c with canonical := some rule.key } := by
  have he' := he
  unfold ruleEligible at he'
  rw [Bool.and_eq_true, Bool.or_eq_true] at he'
  obtain ⟨hg, hm⟩ := he'
  unfold stepCol
  rw [if_neg (by simp [h])]
  have hguard : (!rule.allowGross && c.isGross) = false := by
    rcases hg with hg | hg
    · simp [hg]
    · rw [Bool.not_eq_true'] at hg
      simp [hg]
  rw [hguard]
  simp [hm]

theorem stepCol_of_not_eligible (rule : HeaderRule) (c : ColumnMeta)
    (he : ruleEligible rule c = false) :
    stepCol rule c = c := by
  unfold ruleEligible at he
  rw [Bool.and_eq_false_iff] at he
  unfold stepCol
  split
  · rfl
  · split
    · rfl
    · rcases he with he | he
      · rw [Bool.or_eq_false_iff] at he
        rename_i hguard
        rw [he.1, Bool.not_eq_false' .. |>.mp he.2] at hguard
        simp at hguard
      · rw [if_neg (by simp [he])]

theorem foldl_stepCol_char (rules : List HeaderRule) (c : ColumnMeta)
    (h : c.canonical = none) :
    rules.foldl (fun col rule => stepCol rule col) c =
      match rules.find? (fun r => ruleEligible r c) with
      | some r => { c with canonical := some r.key }
      | none => c := by
  induction rules with
  | nil => rfl
  | cons r rest ih =>
    rw [List.foldl_cons, List.find?_cons]
    rcases he : ruleEligible r c with _ | _
    · rw [stepCol_of_not_eligible r c he]
      exact ih
    · rw [stepCol_of_eligible r c h he]
      rw [foldl_stepCol_of_isSome rest _ (by simp)]

theorem headerRules_allowGross : ∀ r ∈ HEADER_RULES, r.allowGross = false := by
  intro r hr
  simp only [HEADER_RULES, List.mem_cons, List.not_mem_nil, or_false] at hr
  rcases hr with rfl | rfl | rfl | rfl | rfl | rfl | rfl | rfl | rfl <;> rfl

/-- After the ordered rule pass, an initially-unassigned column carries the
key of the first rule it is eligible for (its `firstRuleKey`). -/
theorem rulesPass_canonical (c : ColumnMeta) (h : c.canonical = none) :
    (HEADER_RULES.foldl (fun col rule => stepCol rule col) c).canonical
      = firstRuleKey c := by
  rw [foldl_stepCol_char HEADER_RULES c h]
  unfold firstRuleKey
  rcases hf : HEADER_RULES.find? (fun r => ruleEligible r c) with _ | r
  · simp [h]
  · simp

/-- A gross column is not eligible for any rule in the table. -/
theorem gross_not_eligible (rule : HeaderRule) (c : ColumnMeta)
    (hr : rule.allowGross = false) (hg : c.isGross = true) :
    ruleEligible rule c = false := by
  unfold ruleEligible
  rw [hr, hg]
  rfl

theorem firstRuleKey_gross (c : ColumnMeta) (hg : c.isGross = true) :
    firstRuleKey c = none := by
  unfold firstRuleKey
  have : HEADER_RULES.find? (fun r => ruleEligible r c) = none := by
    rw [List.find?_eq_none]
    intro r hr
    rw [gross_not_eligible r c (headerRules_allowGross r hr) hg]
    simp
  rw [this]
  rfl

theorem foldl_stepCol_preserves (rules : List HeaderRule) (c : ColumnMeta) :
    (rules.foldl (fun col rule => stepCol rule col) c).index = c.index
      ∧ (rules.foldl (fun col rule => stepCol rule col) c).isGross = c.isGross
      ∧ (rules.foldl (fun col rule => stepCol rule col) c).normalized = c.normalized := by
  induction rules generalizing c with
  | nil => exact ⟨rfl, rfl, rfl⟩
  | cons r rest ih =>
    rw [List.foldl_cons]
    obtain ⟨h1, h2, h3, _⟩ := stepCol_preserves r c
    obtain ⟨g1, g2, g3⟩ := ih (stepCol r c)
    exact ⟨g1.trans h1, g2.trans h2, g3.trans h3⟩

theorem ruleEligible_congr (rule : HeaderRule) (c d : ColumnMeta)
    (hg : c.isGross = d.isGross) (hn : c.normalized = d.normalized) :
    ruleEligible rule c = ruleEligible rule d := by
  unfold ruleEligible
  rw [hg, hn]

theorem firstRuleKey_congr (c d : ColumnMeta)
    (hg : c.isGross = d.isGross) (hn : c.normalized = d.normalized) :
    firstRuleKey c = firstRuleKey d := by
  unfold firstRuleKey
  have : (fun r => ruleEligible r c) = (fun r => ruleEligible r d) := by
    funext r
    exact ruleEligible_congr r c d hg hn
  rw [this]

theorem buildColumnMeta_mem (headers : List CellValue) (c : ColumnMeta)
    (hc : c ∈ buildColumnMeta headers) :
    c.canonical = none
      ∧ c.normalized = normalizeHeader (headers.getD c.index CellValue.vnull)
      ∧ c.isGross = strContains c.normalized "gross" := by
  unfold buildColumnMeta at hc
  rw [List.mem_map] at hc
  obtain ⟨i, hi, rfl⟩ := hc
  exact ⟨rfl, rfl, rfl⟩

theorem buildColumnMeta_length (headers : List CellValue) :
    (buildColumnMeta headers).length = headers.length := by
  unfold buildColumnMeta
  rw [List.length_map, List.length_range]

theorem buildColumnMeta_getElem (headers : List CellValue) (j : ℕ)
    (h : j < (buildColumnMeta headers).length) :
    (buildColumnMeta headers)[j] =
      { original := headerString (headers.getD j CellValue.vnull)
        normalized := normalizeHeader (headers.getD j CellValue.vnull)
        index := j
        isGross := strContains (normalizeHeader (headers.getD j CellValue.vnull)) "gross"
        canonical := none } := by
  unfold buildColumnMeta at h ⊢
  rw [List.getElem_map]
  rw [List.getElem_range]

theorem fallbackCond_facts (c : ColumnMeta) (h : fallbackCond c = true) :
    c.isGross = false ∧ c.canonical = none
      ∧ strContains c.normalized "sales" = true := by
  unfold fallbackCond at h
  by_cases hg : (c.isGross || c.canonical.isSome) = true
  · rw [if_pos hg] at h
    exact absurd h (by simp)
  · rw [if_neg hg] at h
    rw [Bool.or_eq_true] at hg
    push_neg at hg
    refine ⟨by simpa using hg.1, ?_, ?_⟩
    · have := hg.2
      rcases hc : c.canonical with _ | k
      · rfl
      · exact absurd (by simp [hc]) this
    · by_cases hs : strContains c.normalized "sales" = true
      · exact hs
      · rw [if_pos (by simpa using hs)] at h
        exact absurd h (by simp)

/-- Full characterization of the classification result for a freshly built
column list: every column either carries the key of the first rule it is
eligible for, or was assigned `net_sales` by the fallback pass (in which case
it is eligible for no rule, is not gross, and contains "sales"). -/
theorem assign_canonical_cases (meta : List ColumnMeta)
    (hinit : ∀ c0 ∈ meta, c0.canonical = none) :
    ∀ c ∈ assignCanonicalKeys meta,
      c.canonical = firstRuleKey c
        ∨ (firstRuleKey c = none ∧ c.canonical = some CanonicalKey.net_sales
            ∧ c.isGross = false ∧ strContains c.normalized "sales" = true) := by
  intro c hc
  unfold assignCanonicalKeys at hc
  rw [foldl_map_stepCol] at hc
  have hmapcase : ∀ d ∈ meta.map (fun c0 => HEADER_RULES.foldl (fun col rule => stepCol rule col) c0),
      d.canonical = firstRuleKey d := by
    intro d hd
    rw [List.mem_map] at hd
    obtain ⟨c0, hc0, rfl⟩ := hd
    obtain ⟨_, hg, hn⟩ := foldl_stepCol_preserves HEADER_RULES c0
    rw [rulesPass_canonical c0 (hinit c0 hc0)]
    exact (firstRuleKey_congr _ c0 hg hn).symm
  by_cases hnet : (meta.map (fun c0 => HEADER_RULES.foldl (fun col rule => stepCol rule col) c0)).any
      (fun column => decide (column.canonical = some CanonicalKey.net_sales))
  · rw [if_pos (by simpa using hnet)] at hc
    exact Or.inl (hmapcase c hc)
  · rw [if_neg (by simpa using hnet)] at hc
    split at hc
    · rename_i i hidx
      split at hc
      · rename_i col hget
        rcases List.mem_or_eq_of_mem_set hc with hmem | heq
        · exact Or.inl (hmapcase c hmem)
        · have hcolmem : col ∈ meta.map
              (fun c0 => HEADER_RULES.foldl (fun col rule => stepCol rule col) c0) :=
            List.get?_mem hget
          have hfb : fallbackCond col = true := by
            have hh := List.findIdx?_of_eq_some hidx
            rw [← List.get?_eq_getElem?, hget] at hh
            simpa using hh
          obtain ⟨hfg, hfcan, hfsales⟩ := fallbackCond_facts col hfb
          have hcolchar := hmapcase col hcolmem
          have hfrk : firstRuleKey col = none := hfcan ▸ hcolchar.symm
          subst heq
          refine Or.inr ⟨?_, rfl, hfg, hfsales⟩
          exact (firstRuleKey_congr
            { original := col.original, normalized := col.normalized, index := col.index,
              isGross := col.isGross, canonical := some CanonicalKey.net_sales }
            col rfl rfl).trans hfrk
      · exact Or.inl (hmapcase c hc)
    · exact Or.inl (hmapcase c hc)

theorem assign_length (meta : List ColumnMeta) :
    (assignCanonicalKeys meta).length = meta.length := by
  simp only [assignCanonicalKeys, foldl_map_stepCol]
  split
  · rw [List.length_map]
  · split
    · split
      · rw [List.length_set, List.length_map]
      · rw [List.length_map]
    · rw [List.length_map]

theorem assign_getElem?_pres (meta : List ColumnMeta) (j : ℕ) (c : ColumnMeta)
    (hc : (assignCanonicalKeys meta)[j]? = some c) :
    ∃ c0, meta[j]? = some c0 ∧ c.index = c0.index ∧ c.isGross = c0.isGross
      ∧ c.normalized = c0.normalized := by
  have hmap : ∀ d, (meta.map
        (fun c0 => HEADER_RULES.foldl (fun col rule => stepCol rule col) c0))[j]? = some d →
      ∃ c0, meta[j]? = some c0 ∧ d.index = c0.index ∧ d.isGross = c0.isGross
        ∧ d.normalized = c0.normalized := by
    intro d hd
    rw [List.getElem?_map, Option.map_eq_some'] at hd
    obtain ⟨c0, h0, rfl⟩ := hd
    obtain ⟨p1, p2, p3⟩ := foldl_stepCol_preserves HEADER_RULES c0
    exact ⟨c0, h0, p1, p2, p3⟩
  simp only [assignCanonicalKeys, foldl_map_stepCol] at hc
  split at hc
  · exact hmap c hc
  · split at hc
    · split at hc
      · rename_i oi i hidx ocol col hget
        by_cases hij : i = j
        · subst hij
          have hi : i < (meta.map
              (fun c0 => HEADER_RULES.foldl (fun col rule => stepCol rule col) c0)).length := by
            rw [List.get?_eq_getElem?, List.getElem?_eq_some] at hget
            exact hget.1
          rw [List.getElem?_set_self hi, Option.some.injEq] at hc
          have hcol : (meta.map
              (fun c0 => HEADER_RULES.foldl (fun col rule => stepCol rule col) c0))[i]? = some col := by
            rw [← List.get?_eq_getElem?]
            exact hget
          obtain ⟨c0, h0, p1, p2, p3⟩ := hmap col hcol
          exact ⟨c0, h0, by rw [← hc]; exact p1, by rw [← hc]; exact p2, by rw [← hc]; exact p3⟩
        · rw [List.getElem?_set_ne hij] at hc
          exact hmap c hc
      · exact hmap c hc
    · exact hmap c hc

theorem assigned_index_positions (headers : List CellValue) (j : ℕ)
    (h : j < (assignCanonicalKeys (buildColumnMeta headers)).length) :
    ((assignCanonicalKeys (buildColumnMeta headers))[j]).index = j := by
  have h2 : j < (buildColumnMeta headers).length := by
    rw [← assign_length]
    exact h
  have hc : (assignCanonicalKeys (buildColumnMeta headers))[j]?
      = some ((assignCanonicalKeys (buildColumnMeta headers))[j]) :=
    List.getElem?_eq_getElem h
  obtain ⟨c0, h0, p1, _, _⟩ := assign_getElem?_pres (buildColumnMeta headers) j _ hc
  rw [List.getElem?_eq_getElem h2, Option.some.injEq] at h0
  rw [p1, ← h0, buildColumnMeta_getElem headers j h2]

theorem assigned_gross_none (headers : List CellValue) :
    ∀ c ∈ assignCanonicalKeys (buildColumnMeta headers),
      c.isGross = true → c.canonical = none := by
  intro c hc hg
  have hinit : ∀ c0 ∈ buildColumnMeta headers, c0.canonical = none :=
    fun c0 h0 => (buildColumnMeta_mem headers c0 h0).1
  rcases assign_canonical_cases (buildColumnMeta headers) hinit c hc with hcase | hcase
  · rw [hcase]
    exact firstRuleKey_gross c hg
  · exact absurd hg (by simp [hcase.2.2.1])

theorem headerRules_cons : HEADER_RULES = netSalesHeaderRule :: HEADER_RULES.tail := rfl

theorem ruleEligible_netRule (c : ColumnMeta) :
    ruleEligible netSalesHeaderRule c = netSalesEligible c := rfl

theorem tail_keys_ne_net :
    ∀ r ∈ HEADER_RULES.tail, r.key ≠ CanonicalKey.net_sales := by
  intro r hr
  simp only [HEADER_RULES, List.tail_cons, List.mem_cons, List.not_mem_nil, or_false] at hr
  rcases hr with rfl | rfl | rfl | rfl | rfl | rfl | rfl | rfl <;> simp

theorem firstRuleKey_net_iff (c : ColumnMeta) :
    firstRuleKey c = some CanonicalKey.net_sales ↔ netSalesEligible c = true := by
  unfold firstRuleKey
  rw [headerRules_cons, List.find?_cons]
  rcases he : ruleEligible netSalesHeaderRule c with _ | _
  · rw [ruleEligible_netRule] at he
    simp only [he]
    constructor
    · intro hfind
      rcases hsome : HEADER_RULES.tail.find? (fun r => ruleEligible r c) with _ | r
      · rw [hsome] at hfind
        simp at hfind
      · rw [hsome] at hfind
        have hkey : r.key ≠ CanonicalKey.net_sales :=
          tail_keys_ne_net r (List.mem_of_find?_eq_some hsome)
        simp only [Option.map_some'] at hfind
        exact absurd (Option.some.injEq .. ▸ hfind) (by simpa using hkey)
    · intro hh
      exact absurd hh (by simp [he])
  · rw [ruleEligible_netRule] at he
    simp [he, netSalesHeaderRule]

/-!  Lemmas about the row loop of `parseDataset`. -/

theorem accumRow_proj (m : FileMetrics) (r : NormalizedRow) :
    (accumRow m r).netSales = addOpt m.netSales r.net_sales
      ∧ (accumRow m r).guests = addOpt m.guests r.guests
      ∧ (accumRow m r).tips = addOpt m.tips r.tips
      ∧ (accumRow m r).laborCost = addOpt m.laborCost r.labor_cost
      ∧ (accumRow m r).laborHours = addOpt m.laborHours r.labor_hours
      ∧ (accumRow m r).laborPercentSamples
          = (match r.labor_percent with
             | none => m.laborPercentSamples
             | some v => m.laborPercentSamples ++ [v])
      ∧ (accumRow m r).categories
          = (match r.category, r.net_sales with
             | some c, some ns =>
               mapSet m.categories c (JSNum.add ((mapGet m.categories c).getD (JSNum.fin 0)) ns)
             | _, _ => m.categories)
      ∧ (accumRow m r).daily
          = (match r.date with
             | none => m.daily
             | some date =>
               let current := (mapGet m.daily date).getD
                 { netSales := JSNum.fin 0, guests := JSNum.fin 0, tips := JSNum.fin 0 }
               mapSet m.daily date
                 { netSales := addOpt current.netSales r.net_sales
                   guests := addOpt current.guests r.guests
                   tips := addOpt current.tips r.tips }) := by
  rcases hlp : r.labor_percent with _ | v <;>
    rcases hcat : r.category with _ | c <;>
      rcases hns : r.net_sales with _ | ns <;>
        rcases hd : r.date with _ | date <;>
          simp [accumRow, hlp, hcat, hns, hd]

theorem parse_fold_nodup (idx : List (CanonicalKey × ℕ)) (rows : List (List CellValue))
    (st : FileMetrics × List NormalizedRow)
    (h1 : (keysOf st.1.categories).Nodup) (h2 : (keysOf st.1.daily).Nodup) :
    (keysOf (rows.foldl (processRow idx) st).1.categories).Nodup
      ∧ (keysOf (rows.foldl (processRow idx) st).1.daily).Nodup := by
  induction rows generalizing st with
  | nil => exact ⟨h1, h2⟩
  | cons row rest ih =>
    rw [List.foldl_cons]
    unfold processRow
    split
    · refine ih _ ?_ ?_
      · obtain ⟨_, _, _, _, _, _, hcat, _⟩ :=
          accumRow_proj st.1 (normalizeRow idx row)
        rw [hcat]
        rcases (normalizeRow idx row).category with _ | c <;>
          rcases (normalizeRow idx row).net_sales with _ | ns
        all_goals first
          | exact h1
          | exact keysOf_mapSet_nodup _ _ _ h1
      · obtain ⟨_, _, _, _, _, _, _, hdaily⟩ :=
          accumRow_proj st.1 (normalizeRow idx row)
        rw [hdaily]
        rcases (normalizeRow idx row).date with _ | date
        · exact h2
        · exact keysOf_mapSet_nodup _ _ _ h2
    · exact ih st h1 h2

theorem parse_catsum_inv (idx : List (CanonicalKey × ℕ)) (rows : List (List CellValue))
    (st : FileMetrics × List NormalizedRow)
    (hrows : ∀ row ∈ rows, isMeaningfulRow row = true →
      getText idx row CanonicalKey.category ≠ none
        ∧ getNumeric idx row CanonicalKey.net_sales ≠ none)
    (hst : sumValues st.1.categories = st.1.netSales) :
    sumValues (rows.foldl (processRow idx) st).1.categories
      = (rows.foldl (processRow idx) st).1.netSales := by
  induction rows generalizing st with
  | nil => exact hst
  | cons row rest ih =>
    rw [List.foldl_cons]
    have hrest : ∀ row' ∈ rest, isMeaningfulRow row' = true →
        getText idx row' CanonicalKey.category ≠ none
          ∧ getNumeric idx row' CanonicalKey.net_sales ≠ none :=
      fun row' h' => hrows row' (List.mem_cons_of_mem _ h')
    unfold processRow
    split
    · rename_i hmean
      refine ih _ hrest ?_
      obtain ⟨hnet, _, _, _, _, _, hcat, _⟩ := accumRow_proj st.1 (normalizeRow idx row)
      obtain ⟨hc, hn⟩ := hrows row (List.mem_cons_self row rest) hmean
      have hcv : (normalizeRow idx row).category = getText idx row CanonicalKey.category := rfl
      have hnv : (normalizeRow idx row).net_sales = getNumeric idx row CanonicalKey.net_sales := rfl
      rcases hcc : getText idx row CanonicalKey.category with _ | c
      · exact absurd hcc hc
      · rcases hnn : getNumeric idx row CanonicalKey.net_sales with _ | ns
        · exact absurd hnn hn
        · rw [hcat, hnet, hcv, hnv, hcc, hnn]
          simp only []
          rw [sumValues_mapSet_add, hst]
          rfl
    · exact ih st hrest hst

theorem combineStep_proj (st : List CanonicalKey × FileMetrics × List NormalizedRow)
    (d : DatasetWithStorage) :
    (combineStep st d).1 = d.presentKeys.foldl setAdd st.1
      ∧ (combineStep st d).2.1.netSales = JSNum.add st.2.1.netSales d.metrics.netSales
      ∧ (combineStep st d).2.1.guests = JSNum.add st.2.1.guests d.metrics.guests
      ∧ (combineStep st d).2.1.tips = JSNum.add st.2.1.tips d.metrics.tips
      ∧ (combineStep st d).2.1.laborCost = JSNum.add st.2.1.laborCost d.metrics.laborCost
      ∧ (combineStep st d).2.1.laborHours = JSNum.add st.2.1.laborHours d.metrics.laborHours
      ∧ (combineStep st d).2.1.laborPercentSamples
          = st.2.1.laborPercentSamples ++ d.metrics.laborPercentSamples
      ∧ (combineStep st d).2.1.categories
          = mergeCategories st.2.1.categories d.metrics.categories
      ∧ (combineStep st d).2.1.daily = mergeDaily st.2.1.daily d.metrics.daily
      ∧ (combineStep st d).2.2 = takeSamples st.2.2 d.normalizedSample := by
  refine ⟨rfl, rfl, rfl, rfl, rfl, rfl, rfl, rfl, rfl, rfl⟩

theorem combine_catsum (datasets : List DatasetWithStorage)
    (h : ∀ d ∈ datasets, sumValues d.metrics.categories = d.metrics.netSales) :
    sumValues (combineDatasets datasets).metrics.categories
      = (combineDatasets datasets).metrics.netSales := by
  suffices haux : ∀ (st : List CanonicalKey × FileMetrics × List NormalizedRow),
      sumValues st.2.1.categories = st.2.1.netSales →
      sumValues (datasets.foldl combineStep st).2.1.categories
        = (datasets.foldl combineStep st).2.1.netSales by
    exact haux ([], initMetrics, []) (by simp [initMetrics, sumValues_nil])
  induction datasets with
  | nil => intro st hst; exact hst
  | cons d rest ih =>
    intro st hst
    rw [List.foldl_cons]
    refine ih (fun d' h' => h d' (List.mem_cons_of_mem _ h')) _ ?_
    obtain ⟨_, hnet, _, _, _, _, _, hcats, _, _⟩ := combineStep_proj st d
    rw [hcats, hnet, sumValues_mergeCategories, hst,
      h d (List.mem_cons_self d rest)]

theorem normalizeRow_field_none (idx : List (CanonicalKey × ℕ)) (row : List CellValue)
    (k : CanonicalKey) (h : mapGet idx k = none) :
    rowFieldIsNone (normalizeRow idx row) k = true := by
  cases k <;> simp [rowFieldIsNone, normalizeRow, getNumeric, getText, getDate, h]

theorem metricAbsent_accumRow (m : FileMetrics) (r : NormalizedRow) (k : CanonicalKey)
    (hr : rowFieldIsNone r k = true) (hm : metricAbsent m k) :
    metricAbsent (accumRow m r) k := by
  obtain ⟨hnet, hg, ht, hlc, hlh, hlp, hcat, hdaily⟩ := accumRow_proj m r
  cases k
  case net_sales =>
    simp only [rowFieldIsNone, Option.isNone_iff_eq_none] at hr
    show (accumRow m r).netSales = JSNum.fin 0
    rw [hnet, hr]
    exact hm
  case guests =>
    simp only [rowFieldIsNone, Option.isNone_iff_eq_none] at hr
    show (accumRow m r).guests = JSNum.fin 0
    rw [hg, hr]
    exact hm
  case tips =>
    simp only [rowFieldIsNone, Option.isNone_iff_eq_none] at hr
    show (accumRow m r).tips = JSNum.fin 0
    rw [ht, hr]
    exact hm
  case labor_cost =>
    simp only [rowFieldIsNone, Option.isNone_iff_eq_none] at hr
    show (accumRow m r).laborCost = JSNum.fin 0
    rw [hlc, hr]
    exact hm
  case labor_hours =>
    simp only [rowFieldIsNone, Option.isNone_iff_eq_none] at hr
    show (accumRow m r).laborHours = JSNum.fin 0
    rw [hlh, hr]
    exact hm
  case labor_percent =>
    simp only [rowFieldIsNone, Option.isNone_iff_eq_none] at hr
    show (accumRow m r).laborPercentSamples = []
    rw [hlp, hr]
    exact hm
  case date =>
    simp only [rowFieldIsNone, Option.isNone_iff_eq_none] at hr
    show (accumRow m r).daily = []
    rw [hdaily, hr]
    exact hm
  case category =>
    simp only [rowFieldIsNone, Option.isNone_iff_eq_none] at hr
    show (accumRow m r).categories = []
    rw [hcat, hr]
    exact hm
  case item =>
    trivial

theorem parse_fold_absent (idx : List (CanonicalKey × ℕ)) (rows : List (List CellValue))
    (st : FileMetrics × List NormalizedRow) (k : CanonicalKey)
    (h : mapGet idx k = none)
    (hm : metricAbsent st.1 k) (hs : ∀ r ∈ st.2, rowFieldIsNone r k = true) :
    metricAbsent (rows.foldl (processRow idx) st).1 k
      ∧ ∀ r ∈ (rows.foldl (processRow idx) st).2, rowFieldIsNone r k = true := by
  induction rows generalizing st with
  | nil => exact ⟨hm, hs⟩
  | cons row rest ih =>
    rw [List.foldl_cons]
    unfold processRow
    split
    · have hnone := normalizeRow_field_none idx row k h
      refine ih _ (metricAbsent_accumRow st.1 (normalizeRow idx row) k hnone hm) ?_
      intro r hrr
      dsimp only at hrr
      split at hrr
      · rcases List.mem_append.mp hrr with hmem | hmem
        · exact hs r hmem
        · rw [List.mem_singleton.mp hmem]
          exact hnone
      · exact hs r hrr
    · exact ih st hm hs

theorem parseDataset_invariants (name : String) (headers : List CellValue)
    (rows : List (List CellValue)) :
    (keysOf (parseDataset name headers rows).metrics.categories).Nodup
      ∧ (keysOf (parseDataset name headers rows).metrics.daily).Nodup
      ∧ (parseDataset name headers rows).presentKeys.Nodup := by
  have hfold := parse_fold_nodup
    (buildIndexByKey (assignCanonicalKeys (buildColumnMeta headers))).1 rows
    (initMetrics, []) (by simp [initMetrics, keysOf_nil]) (by simp [initMetrics, keysOf_nil])
  exact ⟨hfold.1, hfold.2,
    (presentKeys_keysOf (assignCanonicalKeys (buildColumnMeta headers))).2⟩

theorem combineDatasets_single (d : DatasetWithStorage)
    (h1 : (keysOf d.metrics.categories).Nodup)
    (h2 : (keysOf d.metrics.daily).Nodup)
    (h3 : d.presentKeys.Nodup) :
    (combineDatasets [d]).metrics.netSales = d.metrics.netSales
      ∧ (combineDatasets [d]).metrics.guests = d.metrics.guests
      ∧ (combineDatasets [d]).metrics.tips = d.metrics.tips
      ∧ (combineDatasets [d]).metrics.laborCost = d.metrics.laborCost
      ∧ (combineDatasets [d]).metrics.laborHours = d.metrics.laborHours
      ∧ (combineDatasets [d]).metrics.laborPercentSamples = d.metrics.laborPercentSamples
      ∧ (combineDatasets [d]).metrics.categories = d.metrics.categories
      ∧ (combineDatasets [d]).metrics.daily = d.metrics.daily
      ∧ (combineDatasets [d]).keys = d.presentKeys := by
  have hfold : ([d].foldl combineStep ([], initMetrics, []))
      = combineStep ([], initMetrics, []) d := rfl
  have hmet : (combineDatasets [d]).metrics = (combineStep ([], initMetrics, []) d).2.1 := rfl
  have hkeys : (combineDatasets [d]).keys = (combineStep ([], initMetrics, []) d).1 := rfl
  obtain ⟨pk, pnet, pg, pt, plc, plh, plp, pcat, pdaily, _⟩ :=
    combineStep_proj ([], initMetrics, []) d
  refine ⟨?_, ?_, ?_, ?_, ?_, ?_, ?_, ?_, ?_⟩
  · rw [hmet, pnet]; exact JSNum.zero_add _
  · rw [hmet, pg]; exact JSNum.zero_add _
  · rw [hmet, pt]; exact JSNum.zero_add _
  · rw [hmet, plc]; exact JSNum.zero_add _
  · rw [hmet, plh]; exact JSNum.zero_add _
  · rw [hmet, plp]; rfl
  · rw [hmet, pcat]
    show mergeCategories initMetrics.categories d.metrics.categories = d.metrics.categories
    rw [show initMetrics.categories = [] from rfl]
    rw [mergeCategories_of_disjoint [] d.metrics.categories
      (fun k _ => by simp [keysOf_nil]) h1]
    rfl
  · rw [hmet, pdaily]
    show mergeDaily initMetrics.daily d.metrics.daily = d.metrics.daily
    rw [show initMetrics.daily = [] from rfl]
    rw [mergeDaily_of_disjoint [] d.metrics.daily
      (fun k _ => by simp [keysOf_nil]) h2]
    rfl
  · rw [hkeys, pk]
    rw [setAdd_foldl_of_disjoint [] d.presentKeys (fun k _ => by simp) h3]
    rfl

/-!  Lemmas for the PPA resolver. -/

theorem mem_insertByKey (e f : String × DailyTotals) (l : List (String × DailyTotals)) :
    e ∈ insertByKey f l ↔ e = f ∨ e ∈ l := by
  induction l with
  | nil => simp [insertByKey]
  | cons hd tl ih =>
    unfold insertByKey
    split
    · simp
    · rw [List.mem_cons, ih, List.mem_cons]
      tauto

theorem mem_sortDailyEntries (e : String × DailyTotals) (l : List (String × DailyTotals)) :
    e ∈ sortDailyEntries l ↔ e ∈ l := by
  unfold sortDailyEntries
  induction l with
  | nil => simp
  | cons hd tl ih =>
    rw [List.foldr_cons, mem_insertByKey, ih, List.mem_cons]

theorem numberOfFormatted_not_infinite (v : Option JSNum) (d : ℕ) :
    numberOfFormatted (formatNumber v d) ≠ JSNum.inf
      ∧ numberOfFormatted (formatNumber v d) ≠ JSNum.ninf := by
  rcases v with _ | n
  · exact ⟨by simp [formatNumber, numberOfFormatted], by simp [formatNumber, numberOfFormatted]⟩
  · cases n <;> simp [formatNumber, numberOfFormatted]

theorem gt_zero_ne_zero (g : JSNum) (h : JSNum.gt g (JSNum.fin 0) = true) :
    g ≠ JSNum.fin 0 := by
  cases g
  · simp [JSNum.gt] at h
  · intro he; exact absurd he (by simp)
  · simp [JSNum.gt] at h
  · rename_i q
    simp only [JSNum.gt, decide_eq_true_eq] at h
    intro he
    rw [JSNum.fin.injEq] at he
    exact absurd (he ▸ h) (lt_irrefl 0)

theorem not_le_zero_ne_zero (g : JSNum) (h : JSNum.le g (JSNum.fin 0) = false) :
    g ≠ JSNum.fin 0 := by
  cases g
  · intro he; exact absurd he (by simp)
  · intro he; exact absurd he (by simp)
  · simp [JSNum.le] at h
  · rename_i q
    simp only [JSNum.le, decide_eq_false_iff_not] at h
    intro he
    rw [JSNum.fin.injEq] at he
    exact absurd (he ▸ le_refl (0 : ℚ)) h

theorem not_le_zero_gt (g : JSNum) (hnan : g ≠ JSNum.nan)
    (h : JSNum.le g (JSNum.fin 0) = false) :
    JSNum.gt g (JSNum.fin 0) = true := by
  cases g
  · exact absurd rfl hnan
  · rfl
  · simp [JSNum.le] at h
  · rename_i q
    simp only [JSNum.le, decide_eq_false_iff_not] at h
    simp only [JSNum.gt, decide_eq_true_eq]
    exact lt_of_not_le h

/-!  Lemmas about the upload loop. -/

theorem processFile_error_of_structural (f : FileUpload) (h : structuralFailure f = true) :
    ∃ e, processFile f = Except.error e := by
  unfold structuralFailure at h
  unfold processFile
  rcases hext : f.extraction with _ | rows
  · exact ⟨_, rfl⟩
  · rw [hext] at h
    dsimp only at h ⊢
    by_cases hemp : rows.isEmpty
    · rw [if_pos hemp]
      exact ⟨_, rfl⟩
    · rw [if_neg hemp]
      have hhdr : (rows.getD (detectHeaderRow rows) []).isEmpty = true := by
        rcases Bool.or_eq_true .. |>.mp h with hh | hh
        · exact absurd hh hemp
        · exact hh
      rw [if_pos hhdr]
      exact ⟨_, rfl⟩

theorem processFiles_abort (pre : List FileUpload) (bad : FileUpload)
    (post : List FileUpload) (hb : structuralFailure bad = true) :
    ∃ e, processFiles (pre ++ bad :: post) = Except.error e
      ∧ processFiles (pre ++ bad :: post) = processFiles (pre ++ [bad]) := by
  induction pre with
  | nil =>
    obtain ⟨e, he⟩ := processFile_error_of_structural bad hb
    refine ⟨e, ?_, ?_⟩
    · show processFiles (bad :: post) = Except.error e
      unfold processFiles
      rw [he]
    · show processFiles (bad :: post) = processFiles [bad]
      unfold processFiles
      rw [he]
  | cons f pre ih =>
    obtain ⟨e, he1, he2⟩ := ih
    rcases hf : processFile f with ef | pf
    · refine ⟨ef, ?_, ?_⟩
      · show processFiles (f :: (pre ++ bad :: post)) = Except.error ef
        unfold processFiles
        rw [hf]
      · show processFiles (f :: (pre ++ bad :: post)) = processFiles (f :: (pre ++ [bad]))
        unfold processFiles
        rw [hf]
    · refine ⟨e, ?_, ?_⟩
      · show processFiles (f :: (pre ++ bad :: post)) = Except.error e
        unfold processFiles
        rw [hf, he1]
      · show processFiles (f :: (pre ++ bad :: post)) = processFiles (f :: (pre ++ [bad]))
        unfold processFiles
        rw [hf, he1, he2.symm.trans he1]

/-!  Equivalence of `parseNumeric` with its specification reading. -/

theorem dropLast_subset' {α : Type} (l : List α) : l.dropLast ⊆ l := by
  rw [List.dropLast_eq_take]
  exact List.take_subset _ l

theorem parenSplit_eq (cl : List Char) :
    (match cl with
     | '(' :: rest =>
       if rest.getLast? = some ')' then (rest.dropLast, true)
       else ('(' :: rest, false)
     | l => (l, false))
    = (if (cl.head? = some '(' && cl.getLast? = some ')') = true
       then ((cl.drop 1).dropLast, true) else (cl, false)) := by
  split
  · rename_i rest
    by_cases hlast : rest.getLast? = some ')'
    · rcases rest with _ | ⟨x, xs⟩
      · simp at hlast
      · rw [if_pos hlast]
        rw [if_pos (by simp [hlast])]
        simp
    · rw [if_neg hlast]
      rcases rest with _ | ⟨x, xs⟩
      · rw [if_neg (by simp)]
      · rw [if_neg (by simpa using hlast)]
  · rename_i hne
    rcases cl with _ | ⟨c, rest⟩
    · rw [if_neg (by simp)]
    · have hc : ¬(c = '(') := by
        intro hcc
        exact hne rest (by rw [hcc])
      rw [if_neg (by simp [hc])]

theorem parseNumeric_eq_spec (v : CellValue) : parseNumeric v = specParseNumeric v := by
  rcases v with _ | n | s
  · rfl
  · rcases n with _ | _ | _ | q <;> rfl
  · unfold parseNumeric specParseNumeric
    dsimp only [cellString]
    by_cases hlen : (jsTrim s).length = 0
    · rw [if_pos hlen, if_pos hlen]
    · rw [if_neg hlen, if_neg hlen]
      rw [parenSplit_eq]
      by_cases hwrap : (((jsTrim s).toList.filter
            (fun c => !(c = '$' || c = ',' || c = '%' || isJsSpace c))).head? = some '('
          && ((jsTrim s).toList.filter
            (fun c => !(c = '$' || c = ',' || c = '%' || isJsSpace c))).getLast? = some ')') = true
      · rw [if_pos hwrap]
        dsimp only
        have hsub : ((((jsTrim s).toList.filter
              (fun c => !(c = '$' || c = ',' || c = '%' || isJsSpace c))).drop 1).dropLast).filter
              (fun c => !(c = ',')) =
            (((jsTrim s).toList.filter
              (fun c => !(c = '$' || c = ',' || c = '%' || isJsSpace c))).drop 1).dropLast := by
          rw [List.filter_eq_self]
          intro c hc
          have hmem : c ∈ (jsTrim s).toList.filter
              (fun c => !(c = '$' || c = ',' || c = '%' || isJsSpace c)) :=
            List.drop_subset 1 _ (dropLast_subset' _ hc)
          rw [List.mem_filter] at hmem
          have hp := hmem.2
          simp only [Bool.not_eq_true', Bool.or_eq_false_iff, decide_eq_false_iff_not] at hp
          simp [hp.1.1.2]
        rw [hsub]
        rw [hwrap]
        rfl
      · rw [if_neg hwrap]
        dsimp only
        have hsub : (((jsTrim s).toList.filter
              (fun c => !(c = '$' || c = ',' || c = '%' || isJsSpace c))).filter
              (fun c => !(c = ','))) =
            ((jsTrim s).toList.filter
              (fun c => !(c = '$' || c = ',' || c = '%' || isJsSpace c))) := by
          rw [List.filter_eq_self]
          intro c hc
          rw [List.mem_filter] at hc
          have hp := hc.2
          simp only [Bool.not_eq_true', Bool.or_eq_false_iff, decide_eq_false_iff_not] at hp
          simp [hp.1.1.2]
        rw [hsub]
        rw [Bool.not_eq_true] at hwrap
        rw [hwrap]
        rfl

/-- C1: the dataset type follows the §4.3 decision table (labor wins, then
item/category/date specificity, tips without net, net alone, tips, unknown),
evaluated top-to-bottom with first match winning, and it is a pure function
of the present-key set: it is computed from the headers alone, so row values
never influence it, and files with equal present-key sets get equal types. -/
theorem datasetType_decision_table :
    (∀ presentKeys : List CanonicalKey,
      detectDatasetType presentKeys
        = specDatasetTable
            (presentKeys.contains CanonicalKey.labor_cost
              || presentKeys.contains CanonicalKey.labor_hours
              || presentKeys.contains CanonicalKey.labor_percent)
            (presentKeys.contains CanonicalKey.net_sales)
            (presentKeys.contains CanonicalKey.item)
            (presentKeys.contains CanonicalKey.category)
            (presentKeys.contains CanonicalKey.date)
            (presentKeys.contains CanonicalKey.tips))
    ∧ (∀ (name : String) (headers : List CellValue) (rows1 rows2 : List (List CellValue)),
        (parseDataset name headers rows1).datasetType
          = (parseDataset name headers rows2).datasetType)
    ∧ (∀ (name1 name2 : String) (headers1 headers2 : List CellValue)
        (rows1 rows2 : List (List CellValue)),
        (parseDataset name1 headers1 rows1).presentKeys
            = (parseDataset name2 headers2 rows2).presentKeys →
          (parseDataset name1 headers1 rows1).datasetType
            = (parseDataset name2 headers2 rows2).datasetType) := by
  refine ⟨?_, ?_, ?_⟩
  · intro ks
    simp only [detectDatasetType, specDatasetTable]
    generalize ks.contains CanonicalKey.labor_cost = b1
    generalize ks.contains CanonicalKey.labor_hours = b2
    generalize ks.contains CanonicalKey.labor_percent = b3
    generalize ks.contains CanonicalKey.net_sales = b4
    generalize ks.contains CanonicalKey.item = b5
    generalize ks.contains CanonicalKey.category = b6
    generalize ks.contains CanonicalKey.date = b7
    generalize ks.contains CanonicalKey.tips = b8
    revert b1 b2 b3 b4 b5 b6 b7 b8
    decide
  · intro name headers rows1 rows2
    simp only [parseDataset]
  · intro name1 name2 headers1 headers2 rows1 rows2 hkeys
    have he : ∀ (n : String) (h : List CellValue) (r : List (List CellValue)),
        (parseDataset n h r).datasetType
          = detectDatasetType (parseDataset n h r).presentKeys := by
      intro n h r
      simp only [parseDataset]
    rw [he, he, hkeys]

set_option maxHeartbeats 1000000 in
/-- C1 witness: two concrete files with the same headers but different row
values have equal present-key sets and hence receive the same dataset type. -/
theorem datasetType_decision_table_witness :
    (parseDataset "a.csv"
        [CellValue.vstr "Date", CellValue.vstr "Net Sales"]
        [[CellValue.vstr "2024-11-01", CellValue.vnum (JSNum.fin 500)]]).datasetType
      = (parseDataset "b.csv"
        [CellValue.vstr "Date", CellValue.vstr "Net Sales"]
        [[CellValue.vstr "2024-11-02", CellValue.vnum (JSNum.fin 300)]]).datasetType :=
  datasetType_decision_table.2.2 "a.csv" "b.csv"
    [CellValue.vstr "Date", CellValue.vstr "Net Sales"]
    [CellValue.vstr "Date", CellValue.vstr "Net Sales"]
    [[CellValue.vstr "2024-11-01", CellValue.vnum (JSNum.fin 500)]]
    [[CellValue.vstr "2024-11-02", CellValue.vnum (JSNum.fin 300)]]
    (by decide)

theorem find?_min_index (l : List ColumnMeta) (p : ColumnMeta → Bool) (c : ColumnMeta)
    (hpos : ∀ (j : ℕ) (hj : j < l.length), (l[j]).index = j)
    (hfind : l.find? p = some c) :
    ∀ c' ∈ l, p c' = true → c.index ≤ c'.index := by
  rw [List.find?_eq_some] at hfind
  obtain ⟨hp, as, bs, heq, hfail⟩ := hfind
  subst heq
  have hlc : as.length < (as ++ c :: bs).length := by simp
  have hceq : (as ++ c :: bs)[as.length] = c := by
    rw [List.getElem_append_right (le_refl _)]
    simp
  have hcidx : c.index = as.length := by
    have hh := hpos as.length hlc
    rw [hceq] at hh
    exact hh
  intro c' hc' hp'
  rcases List.mem_append.mp hc' with h1 | h2
  · exact absurd hp' (by simpa using hfail c' h1)
  · rcases List.mem_cons.mp h2 with heqc | h3
    · rw [heqc]
    · obtain ⟨j, hj, hje⟩ := List.mem_iff_getElem.mp h3
      have hj1 : j + 1 < (c :: bs).length := by simpa using hj
      have hcons : (c :: bs)[j + 1] = c' := by
        rw [List.getElem_cons_succ]
        exact hje
      have happ := @List.getElem_append_right' _ as (c :: bs) (j + 1) hj1
      have hbig : j + 1 + as.length < (as ++ c :: bs).length := by
        simp
        omega
      have hval : (as ++ c :: bs)[j + 1 + as.length] = c' := by
        rw [← happ]
        exact hcons
      have hidx := hpos (j + 1 + as.length) hbig
      rw [hval] at hidx
      rw [hcidx, hidx]
      omega

theorem assign_eq_map_of_net (meta : List ColumnMeta)
    (hinit : ∀ c0 ∈ meta, c0.canonical = none)
    (hex : ∃ c0 ∈ meta, firstRuleKey c0 = some CanonicalKey.net_sales) :
    assignCanonicalKeys meta
      = meta.map (fun c0 => HEADER_RULES.foldl (fun col rule => stepCol rule col) c0) := by
  obtain ⟨c0, hc0, hfk⟩ := hex
  have hassigned : (HEADER_RULES.foldl (fun col rule => stepCol rule col) c0).canonical
      = some CanonicalKey.net_sales := by
    rw [rulesPass_canonical c0 (hinit c0 hc0)]
    exact hfk
  simp only [assignCanonicalKeys, foldl_map_stepCol]
  rw [if_pos]
  rw [List.any_eq_true]
  exact ⟨_, List.mem_map_of_mem _ hc0, by simpa using hassigned⟩

/-- C2 counterexample: the claim says every non-finite native number maps to
null, but `parseNumeric` only rejects NaN — a native `Infinity` (and
`-Infinity`) passes through unchanged. -/
theorem parseNumeric_counterexample :
    parseNumeric (CellValue.vnum JSNum.inf) = some JSNum.inf
      ∧ parseNumeric (CellValue.vnum JSNum.inf) ≠ none
      ∧ parseNumeric (CellValue.vnum JSNum.ninf) = some JSNum.ninf := by
  refine ⟨rfl, by simp [parseNumeric], rfl⟩

/-- C2 (amended): `parseNumeric` returns null for null/undefined; a native
number is returned unchanged unless it is NaN (`Infinity` and `-Infinity`
included); text is parsed after stripping `$`, thousands-separator commas,
`%` and whitespace, negated when the cleaned text is wrapped in parentheses,
with null returned on empty input or parse failure. -/
theorem parseNumeric_matches_spec :
    ∀ v : CellValue, parseNumeric v = specParseNumeric v :=
  parseNumeric_eq_spec

/-- C3 counterexample: for the lone header "Sales" no `net_sales` rule
pattern matches the column, yet the fallback pass still binds `net_sales` to
it — so a key can be bound to a column whose normalized header matches none
of that rule's patterns, contradicting the claim's description of the bound
column. -/
theorem canonical_binding_counterexample :
    mapGet (buildIndexByKey (assignCanonicalKeys
        (buildColumnMeta [CellValue.vstr "Sales"]))).1 CanonicalKey.net_sales = some 0
      ∧ (∀ c ∈ assignCanonicalKeys (buildColumnMeta [CellValue.vstr "Sales"]),
          netSalesEligible c = false ∧ firstRuleKey c = none) := by
  constructor
  · decide
  · decide

/-- C3 (amended): each canonical key is bound to at most one column — the
leftmost column carrying that role, duplicates ignored; the ordered pattern
pass gives each column the key of the first rule it is eligible for, except
that `net_sales` may additionally be bound by the fallback pass to a
non-gross column containing "sales" when no column matched any `net_sales`
pattern. -/
theorem canonical_binding_unique (headers : List CellValue) (k : CanonicalKey) :
    (mapGet (buildIndexByKey (assignCanonicalKeys (buildColumnMeta headers))).1 k
      = ((assignCanonicalKeys (buildColumnMeta headers)).find?
          (fun c => c.canonical == some k)).map (fun c => c.index))
    ∧ (∀ i, mapGet (buildIndexByKey (assignCanonicalKeys (buildColumnMeta headers))).1 k
          = some i →
        ∃ c ∈ assignCanonicalKeys (buildColumnMeta headers),
          c.index = i ∧ c.canonical = some k
            ∧ ∀ c' ∈ assignCanonicalKeys (buildColumnMeta headers),
                c'.canonical = some k → i ≤ c'.index)
    ∧ (∀ c ∈ assignCanonicalKeys (buildColumnMeta headers),
        c.canonical = firstRuleKey c
          ∨ (firstRuleKey c = none ∧ c.canonical = some CanonicalKey.net_sales
              ∧ c.isGross = false ∧ strContains c.normalized "sales" = true)) := by
  refine ⟨indexByKey_eq_find _ k, ?_, ?_⟩
  · intro i hi
    rw [indexByKey_eq_find] at hi
    rw [Option.map_eq_some'] at hi
    obtain ⟨c, hfind, hidx⟩ := hi
    have hmem := List.mem_of_find?_eq_some hfind
    have hpred := List.find?_some hfind
    rw [beq_iff_eq] at hpred
    refine ⟨c, hmem, hidx, hpred, ?_⟩
    intro c' hc' hk'
    rw [← hidx]
    exact find?_min_index _ _ c (assigned_index_positions headers) hfind c' hc'
      (by simpa using hk')
  · exact assign_canonical_cases (buildColumnMeta headers)
      (fun c0 h0 => (buildColumnMeta_mem headers c0 h0).1)

/-- C3 witness: with duplicate tip-like headers "Tips" and "Tip Total", the
`tips` role is bound to the first one (column 0), the duplicate is ignored. -/
theorem canonical_binding_unique_witness :
    ∃ c ∈ assignCanonicalKeys (buildColumnMeta
        [CellValue.vstr "Tips", CellValue.vstr "Tip Total"]),
      c.index = 0 ∧ c.canonical = some CanonicalKey.tips
        ∧ ∀ c' ∈ assignCanonicalKeys (buildColumnMeta
            [CellValue.vstr "Tips", CellValue.vstr "Tip Total"]),
            c'.canonical = some CanonicalKey.tips → 0 ≤ c'.index :=
  (canonical_binding_unique
    [CellValue.vstr "Tips", CellValue.vstr "Tip Total"] CanonicalKey.tips).2.1
    0 (by decide)

/-- C4 counterexample: a header row containing both a gross column and a
"Net Sales" column need not bind `net_sales` to the "Net Sales" column —
with ["Net Revenue", "Gross Sales", "Net Sales"], the rule pass locks
`net_sales` to column 0 ("Net Revenue"), not to the "Net Sales" column. -/
theorem net_sales_binding_counterexample :
    (∃ c ∈ buildColumnMeta
        [CellValue.vstr "Net Revenue", CellValue.vstr "Gross Sales", CellValue.vstr "Net Sales"],
      c.isGross = true)
    ∧ (∃ c ∈ buildColumnMeta
        [CellValue.vstr "Net Revenue", CellValue.vstr "Gross Sales", CellValue.vstr "Net Sales"],
      c.normalized = "net sales")
    ∧ mapGet (buildIndexByKey (assignCanonicalKeys (buildColumnMeta
        [CellValue.vstr "Net Revenue", CellValue.vstr "Gross Sales", CellValue.vstr "Net Sales"]))).1
        CanonicalKey.net_sales = some 0
    ∧ (∀ c ∈ assignCanonicalKeys (buildColumnMeta
        [CellValue.vstr "Net Revenue", CellValue.vstr "Gross Sales", CellValue.vstr "Net Sales"]),
        c.index = 0 → c.normalized ≠ "net sales") := by
  refine ⟨?_, ?_, ?_, ?_⟩ <;> decide

/-- C4 (amended): whenever the header row contains a "Net Sales" column, the
classifier binds `net_sales` to the first non-gross column matching a
`net_sales` pattern — which is the "Net Sales" column itself when no other
pattern-matching column precedes it — and `net_sales` is never bound to a
column whose header contains "gross", neither by pattern nor by fallback. -/
theorem net_sales_binding (headers : List CellValue)
    (H : ∃ c0 ∈ buildColumnMeta headers, c0.normalized = "net sales") :
    (∃ i c, mapGet (buildIndexByKey (assignCanonicalKeys (buildColumnMeta headers))).1
          CanonicalKey.net_sales = some i
        ∧ c ∈ assignCanonicalKeys (buildColumnMeta headers)
        ∧ c.index = i ∧ c.isGross = false ∧ netSalesEligible c = true
        ∧ ∀ c' ∈ assignCanonicalKeys (buildColumnMeta headers),
            netSalesEligible c' = true → i ≤ c'.index)
    ∧ (∀ c ∈ assignCanonicalKeys (buildColumnMeta headers),
        c.isGross = true → c.canonical ≠ some CanonicalKey.net_sales) := by
  have hinit : ∀ c0 ∈ buildColumnMeta headers, c0.canonical = none :=
    fun c0 h0 => (buildColumnMeta_mem headers c0 h0).1
  obtain ⟨c0, hc0, hnorm⟩ := H
  have hng : c0.isGross = false := by
    rw [(buildColumnMeta_mem headers c0 hc0).2.2, hnorm]
    decide
  have helig : netSalesEligible c0 = true := by
    unfold netSalesEligible
    rw [hng, hnorm]
    decide
  have hfk : firstRuleKey c0 = some CanonicalKey.net_sales :=
    (firstRuleKey_net_iff c0).mpr helig
  have hmap := assign_eq_map_of_net (buildColumnMeta headers) hinit ⟨c0, hc0, hfk⟩
  have hmapchar : ∀ d ∈ assignCanonicalKeys (buildColumnMeta headers),
      d.canonical = firstRuleKey d := by
    rw [hmap]
    intro d hd
    rw [List.mem_map] at hd
    obtain ⟨c1, hc1, rfl⟩ := hd
    obtain ⟨_, hg, hn⟩ := foldl_stepCol_preserves HEADER_RULES c1
    rw [rulesPass_canonical c1 (hinit c1 hc1)]
    exact (firstRuleKey_congr _ c1 hg hn).symm
  have himg : (HEADER_RULES.foldl (fun col rule => stepCol rule col) c0).canonical
      = some CanonicalKey.net_sales := by
    rw [rulesPass_canonical c0 (hinit c0 hc0)]
    exact hfk
  have hmem : (HEADER_RULES.foldl (fun col rule => stepCol rule col) c0)
      ∈ assignCanonicalKeys (buildColumnMeta headers) := by
    rw [hmap]
    exact List.mem_map_of_mem _ hc0
  have hfindsome : ∃ c, (assignCanonicalKeys (buildColumnMeta headers)).find?
      (fun c => c.canonical == some CanonicalKey.net_sales) = some c := by
    rw [← Option.isSome_iff_exists, List.find?_isSome]
    exact ⟨_, hmem, by simpa using himg⟩
  obtain ⟨c, hfind⟩ := hfindsome
  have hcmem := List.mem_of_find?_eq_some hfind
  have hcanon : c.canonical = some CanonicalKey.net_sales := by
    simpa using List.find?_some hfind
  have hcelig : netSalesEligible c = true := by
    refine (firstRuleKey_net_iff c).mp ?_
    rw [← hmapchar c hcmem]
    exact hcanon
  have hcgross : c.isGross = false := by
    unfold netSalesEligible at hcelig
    rw [Bool.and_eq_true] at hcelig
    simpa using hcelig.1
  constructor
  · refine ⟨c.index, c, ?_, hcmem, rfl, hcgross, hcelig, ?_⟩
    · rw [indexByKey_eq_find, hfind]
      rfl
    · intro c' hc' helig'
      refine find?_min_index _ _ c (assigned_index_positions headers) hfind c' hc' ?_
      have : c'.canonical = some CanonicalKey.net_sales := by
        rw [hmapchar c' hc']
        exact (firstRuleKey_net_iff c').mpr helig'
      simpa using this
  · intro c' hc' hg'
    rw [assigned_gross_none headers c' hc' hg']
    simp

/-- C4 witness: with headers ["Gross Sales", "Net Sales"], `net_sales` is
bound to the non-gross "Net Sales" column. -/
theorem net_sales_binding_witness :
    ∃ i c, mapGet (buildIndexByKey (assignCanonicalKeys (buildColumnMeta
          [CellValue.vstr "Gross Sales", CellValue.vstr "Net Sales"]))).1
        CanonicalKey.net_sales = some i
      ∧ c ∈ assignCanonicalKeys (buildColumnMeta
          [CellValue.vstr "Gross Sales", CellValue.vstr "Net Sales"])
      ∧ c.index = i ∧ c.isGross = false ∧ netSalesEligible c = true
      ∧ ∀ c' ∈ assignCanonicalKeys (buildColumnMeta
          [CellValue.vstr "Gross Sales", CellValue.vstr "Net Sales"]),
          netSalesEligible c' = true → i ≤ c'.index :=
  (net_sales_binding [CellValue.vstr "Gross Sales", CellValue.vstr "Net Sales"]
    (by decide)).1

/-- C10: a column whose normalized header contains "gross" is never assigned
any canonical role — every rule's gross guard excludes it and the fallback
skips it — so no key is ever bound to a gross column and a gross column can
never enter the present-key set (hence never feeds any metric, since metrics
read cells only through the key bindings). -/
theorem gross_column_never_bound (headers : List CellValue) :
    (∀ c ∈ assignCanonicalKeys (buildColumnMeta headers),
      c.isGross = true → c.canonical = none)
    ∧ (∀ (k : CanonicalKey) (i : ℕ),
        mapGet (buildIndexByKey (assignCanonicalKeys (buildColumnMeta headers))).1 k
            = some i →
          ∃ c ∈ assignCanonicalKeys (buildColumnMeta headers),
            c.index = i ∧ c.canonical = some k ∧ c.isGross = false)
    ∧ (∀ k ∈ (buildIndexByKey (assignCanonicalKeys (buildColumnMeta headers))).2,
        ∃ c ∈ assignCanonicalKeys (buildColumnMeta headers),
          c.canonical = some k ∧ c.isGross = false) := by
  have hgross := assigned_gross_none headers
  have hbound : ∀ (k : CanonicalKey) (i : ℕ),
      mapGet (buildIndexByKey (assignCanonicalKeys (buildColumnMeta headers))).1 k
          = some i →
        ∃ c ∈ assignCanonicalKeys (buildColumnMeta headers),
          c.index = i ∧ c.canonical = some k ∧ c.isGross = false := by
    intro k i hi
    rw [indexByKey_eq_find, Option.map_eq_some'] at hi
    obtain ⟨c, hfind, hidx⟩ := hi
    have hmem := List.mem_of_find?_eq_some hfind
    have hcanon : c.canonical = some k := by simpa using List.find?_some hfind
    refine ⟨c, hmem, hidx, hcanon, ?_⟩
    by_cases hg : c.isGross = true
    · exact absurd (hgross c hmem hg) (by simp [hcanon])
    · simpa using hg
  refine ⟨hgross, hbound, ?_⟩
  intro k hk
  rw [mem_presentKeys_iff] at hk
  rcases hi : mapGet (buildIndexByKey (assignCanonicalKeys (buildColumnMeta headers))).1 k
      with _ | i
  · exact absurd hi hk
  · obtain ⟨c, hmem, _, hcanon, hng⟩ := hbound k i hi
    exact ⟨c, hmem, hcanon, hng⟩

/-- C10 witness: with headers ["Gross Sales", "Net Sales"], the binding for
`net_sales` points at a concrete non-gross column. -/
theorem gross_column_never_bound_witness :
    ∃ c ∈ assignCanonicalKeys (buildColumnMeta
        [CellValue.vstr "Gross Sales", CellValue.vstr "Net Sales"]),
      c.index = 1 ∧ c.canonical = some CanonicalKey.net_sales ∧ c.isGross = false :=
  (gross_column_never_bound
    [CellValue.vstr "Gross Sales", CellValue.vstr "Net Sales"]).2.1
    CanonicalKey.net_sales 1 (by decide)

/-- C5: the PPA KPI is non-null exactly when the combined group chosen for
net sales also has the guests key with a positive guests total, in which
case it is that same group's net sales divided by its guests (a nonzero
divisor); the PPA trend keeps only dates passing the `guests <= 0` guard
(equivalently `guests > 0` whenever the total is not NaN), divides by that
nonzero guests value, and neither the formatted PPA KPI nor any trend entry
is ever an infinite value. -/
theorem ppa_guarded (combined : List (DatasetType × CombinedDataset)) :
    (∀ p, averagePPA combined = some p →
      ∃ d, netDataset combined = some d
        ∧ d.keys.contains CanonicalKey.guests = true
        ∧ JSNum.gt d.metrics.guests (JSNum.fin 0) = true
        ∧ d.metrics.guests ≠ JSNum.fin 0
        ∧ p = JSNum.div d.metrics.netSales d.metrics.guests)
    ∧ (∀ d, netDataset combined = some d →
        ¬(d.keys.contains CanonicalKey.guests = true
            ∧ JSNum.gt d.metrics.guests (JSNum.fin 0) = true) →
        averagePPA combined = none)
    ∧ (netDataset combined = none → averagePPA combined = none)
    ∧ (∀ e ∈ ppaTrendData combined,
        ∃ dd date totals, dailyDataset combined = some dd
          ∧ (date, totals) ∈ dd.metrics.daily
          ∧ JSNum.le totals.guests (JSNum.fin 0) = false
          ∧ totals.guests ≠ JSNum.fin 0
          ∧ (totals.guests ≠ JSNum.nan → JSNum.gt totals.guests (JSNum.fin 0) = true)
          ∧ e = (date, numberOfFormatted
              (formatNumber (some (JSNum.div totals.netSales totals.guests)) 2)))
    ∧ (∀ e ∈ ppaTrendData combined, e.2 ≠ JSNum.inf ∧ e.2 ≠ JSNum.ninf)
    ∧ numberOfFormatted (formatNumber (averagePPA combined) 2) ≠ JSNum.inf
    ∧ numberOfFormatted (formatNumber (averagePPA combined) 2) ≠ JSNum.ninf := by
  have htrend : ∀ e ∈ ppaTrendData combined,
      ∃ dd date totals, dailyDataset combined = some dd
        ∧ (date, totals) ∈ dd.metrics.daily
        ∧ JSNum.le totals.guests (JSNum.fin 0) = false
        ∧ totals.guests ≠ JSNum.fin 0
        ∧ (totals.guests ≠ JSNum.nan → JSNum.gt totals.guests (JSNum.fin 0) = true)
        ∧ e = (date, numberOfFormatted
            (formatNumber (some (JSNum.div totals.netSales totals.guests)) 2)) := by
    intro e he
    unfold ppaTrendData at he
    rw [List.mem_filterMap] at he
    obtain ⟨a, ha, hfe⟩ := he
    unfold dailyEntries at ha
    rcases hdd : dailyDataset combined with _ | dd
    · rw [hdd] at ha
      simp at ha
    · rw [hdd] at ha
      rw [mem_sortDailyEntries] at ha
      by_cases hle : JSNum.le a.2.guests (JSNum.fin 0) = true
      · rw [if_pos hle] at hfe
        exact absurd hfe (by simp)
      · rw [if_neg hle] at hfe
        rw [Bool.not_eq_true] at hle
        refine ⟨dd, a.1, a.2, rfl, ha, hle, not_le_zero_ne_zero a.2.guests hle,
          fun hnan => not_le_zero_gt a.2.guests hnan hle, ?_⟩
        rw [← Option.some.injEq]
        exact hfe.symm
  refine ⟨?_, ?_, ?_, htrend, ?_, ?_, ?_⟩
  · intro p hp
    unfold averagePPA at hp
    rcases hnd : netDataset combined with _ | d
    · rw [hnd] at hp
      exact absurd hp (by simp)
    · rw [hnd] at hp
      dsimp only at hp
      by_cases hcond : (d.keys.contains CanonicalKey.guests
          && JSNum.gt d.metrics.guests (JSNum.fin 0)) = true
      · rw [if_pos hcond] at hp
        rw [Bool.and_eq_true] at hcond
        refine ⟨d, rfl, hcond.1, hcond.2, gt_zero_ne_zero _ hcond.2, ?_⟩
        exact (Option.some.injEq .. ▸ hp).symm
      · rw [if_neg hcond] at hp
        exact absurd hp (by simp)
  · intro d hnd hcond
    unfold averagePPA
    rw [hnd]
    dsimp only
    rw [if_neg (by rw [Bool.and_eq_true]; exact hcond)]
  · intro hnd
    unfold averagePPA
    rw [hnd]
  · intro e he
    obtain ⟨dd, date, totals, _, _, _, _, _, hee⟩ := htrend e he
    rw [hee]
    exact numberOfFormatted_not_infinite _ 2
  · exact (numberOfFormatted_not_infinite _ 2).1
  · exact (numberOfFormatted_not_infinite _ 2).2

/-- C5 witness: a concrete combined map where the item-sales group has
positive guests yields exactly its net sales over its guests. -/
theorem ppa_guarded_witness :
    ∃ d, netDataset [(DatasetType.item_sales,
        { datasetType := DatasetType.item_sales
          metrics :=
            { netSales := JSNum.fin 500, guests := JSNum.fin 20, tips := JSNum.fin 0
              laborCost := JSNum.fin 0, laborHours := JSNum.fin 0
              laborPercentSamples := [], categories := [], daily := [] }
          keys := [CanonicalKey.net_sales, CanonicalKey.guests]
          files := [], sampleRows := [] })] = some d
      ∧ d.keys.contains CanonicalKey.guests = true
      ∧ JSNum.gt d.metrics.guests (JSNum.fin 0) = true
      ∧ d.metrics.guests ≠ JSNum.fin 0
      ∧ JSNum.div (JSNum.fin 500) (JSNum.fin 20)
          = JSNum.div d.metrics.netSales d.metrics.guests :=
  (ppa_guarded [(DatasetType.item_sales,
    { datasetType := DatasetType.item_sales
      metrics :=
        { netSales := JSNum.fin 500, guests := JSNum.fin 20, tips := JSNum.fin 0
          laborCost := JSNum.fin 0, laborHours := JSNum.fin 0
          laborPercentSamples := [], categories := [], daily := [] }
      keys := [CanonicalKey.net_sales, CanonicalKey.guests]
      files := [], sampleRows := [] })]).1
    (JSNum.div (JSNum.fin 500) (JSNum.fin 20)) rfl

/-- C6: when a canonical key has no bound column, every normalized row of
the file carries null (not 0) for that field, the corresponding FileMetrics
accumulator keeps its initial empty value (no row contributes), and the key
is missing from the present-key set — which is what keeps "column absent"
distinguishable from "values sum to zero". -/
theorem absent_column_null (name : String) (headers : List CellValue)
    (rows : List (List CellValue)) (k : CanonicalKey)
    (h : mapGet (buildIndexByKey (assignCanonicalKeys (buildColumnMeta headers))).1 k
        = none) :
    (∀ r ∈ (parseDataset name headers rows).normalizedSample,
      rowFieldIsNone r k = true)
    ∧ metricAbsent (parseDataset name headers rows).metrics k
    ∧ k ∉ (parseDataset name headers rows).presentKeys := by
  have hfold := parse_fold_absent
    (buildIndexByKey (assignCanonicalKeys (buildColumnMeta headers))).1 rows
    (initMetrics, []) k h
    (by cases k <;> simp [metricAbsent, initMetrics])
    (by intro r hr; simp at hr)
  have hsample : (parseDataset name headers rows).normalizedSample
      = (rows.foldl (processRow
        (buildIndexByKey (assignCanonicalKeys (buildColumnMeta headers))).1)
        (initMetrics, [])).2 := by
    simp only [parseDataset]
  have hmetrics : (parseDataset name headers rows).metrics
      = (rows.foldl (processRow
        (buildIndexByKey (assignCanonicalKeys (buildColumnMeta headers))).1)
        (initMetrics, [])).1 := by
    simp only [parseDataset]
  have hpresent : (parseDataset name headers rows).presentKeys
      = (buildIndexByKey (assignCanonicalKeys (buildColumnMeta headers))).2 := by
    simp only [parseDataset]
  refine ⟨?_, ?_, ?_⟩
  · rw [hsample]
    exact hfold.2
  · rw [hmetrics]
    exact hfold.1
  · rw [hpresent]
    intro hmem
    exact (mem_presentKeys_iff _ k).mp hmem h

/-- C6 witness: with only a "Net Sales" column, the guests metric of a
concrete parsed file stays at its empty value, its sample rows all carry
null guests, and `guests` is not among the present keys. -/
theorem absent_column_null_witness :
    (∀ r ∈ (parseDataset "f.csv" [CellValue.vstr "Net Sales"]
        [[CellValue.vnum (JSNum.fin 500)]]).normalizedSample,
      rowFieldIsNone r CanonicalKey.guests = true)
    ∧ metricAbsent (parseDataset "f.csv" [CellValue.vstr "Net Sales"]
        [[CellValue.vnum (JSNum.fin 500)]]).metrics CanonicalKey.guests
    ∧ CanonicalKey.guests ∉ (parseDataset "f.csv" [CellValue.vstr "Net Sales"]
        [[CellValue.vnum (JSNum.fin 500)]]).presentKeys :=
  absent_column_null "f.csv" [CellValue.vstr "Net Sales"]
    [[CellValue.vnum (JSNum.fin 500)]] CanonicalKey.guests (by decide)

/-- C7: for a group of parsed files in which every meaningful data row has a
non-empty category and a non-null net-sales value, the values of the
combined category map sum to the group's combined net-sales total. -/
theorem category_mix_total (datasets : List DatasetWithStorage)
    (hparsed : ∀ d ∈ datasets, ∃ name headers rows,
      d.toParsedFileData = parseDataset name headers rows
        ∧ ∀ row ∈ rows, isMeaningfulRow row = true →
            getText (buildIndexByKey (assignCanonicalKeys (buildColumnMeta headers))).1
                row CanonicalKey.category ≠ none
              ∧ getNumeric (buildIndexByKey (assignCanonicalKeys (buildColumnMeta headers))).1
                row CanonicalKey.net_sales ≠ none) :
    sumValues (combineDatasets datasets).metrics.categories
      = (combineDatasets datasets).metrics.netSales := by
  refine combine_catsum datasets ?_
  intro d hd
  obtain ⟨name, headers, rows, heq, hrows⟩ := hparsed d hd
  have hmetrics : d.metrics = (parseDataset name headers rows).metrics := by
    rw [heq]
  rw [hmetrics]
  have hfoldeq : (parseDataset name headers rows).metrics
      = (rows.foldl (processRow
        (buildIndexByKey (assignCanonicalKeys (buildColumnMeta headers))).1)
        (initMetrics, [])).1 := by
    simp only [parseDataset]
  rw [hfoldeq]
  exact parse_catsum_inv _ rows (initMetrics, []) hrows (by simp [initMetrics, sumValues_nil])

/-- C7 witness: a concrete single-file group where every row carries a
category and a net-sales value. -/
theorem category_mix_total_witness :
    sumValues (combineDatasets [{
        toParsedFileData := parseDataset "f.csv"
          [CellValue.vstr "Category", CellValue.vstr "Net Sales"]
          [[CellValue.vstr "Food", CellValue.vnum (JSNum.fin 500)],
            [CellValue.vstr "Beverage", CellValue.vnum (JSNum.fin 300)]]
        storageFileName := "s", publicUrl := "u", contentType := "t" }]).metrics.categories
      = (combineDatasets [{
        toParsedFileData := parseDataset "f.csv"
          [CellValue.vstr "Category", CellValue.vstr "Net Sales"]
          [[CellValue.vstr "Food", CellValue.vnum (JSNum.fin 500)],
            [CellValue.vstr "Beverage", CellValue.vnum (JSNum.fin 300)]]
        storageFileName := "s", publicUrl := "u", contentType := "t" }]).metrics.netSales :=
  category_mix_total _ (by
    intro d hd
    rw [List.mem_singleton] at hd
    refine ⟨"f.csv", [CellValue.vstr "Category", CellValue.vstr "Net Sales"],
      [[CellValue.vstr "Food", CellValue.vnum (JSNum.fin 500)],
        [CellValue.vstr "Beverage", CellValue.vnum (JSNum.fin 300)]],
      by rw [hd], ?_⟩
    decide)

/-- C8: combining a batch consisting of one parsed file yields combined
metrics numerically identical to that file's own metrics — equal net-sales,
guests, tips, labor-cost and labor-hours sums, the same labor-percent sample
list, the same present-key set, and category and daily maps with exactly the
same keys and values. -/
theorem combine_singleton (name : String) (headers : List CellValue)
    (rows : List (List CellValue)) (sfn url ct : String) :
    (combineDatasets [{
        toParsedFileData := parseDataset name headers rows,
        storageFileName := sfn, publicUrl := url, contentType := ct }]).metrics.netSales
        = (parseDataset name headers rows).metrics.netSales
      ∧ (combineDatasets [{
          toParsedFileData := parseDataset name headers rows,
          storageFileName := sfn, publicUrl := url, contentType := ct }]).metrics.guests
        = (parseDataset name headers rows).metrics.guests
      ∧ (combineDatasets [{
          toParsedFileData := parseDataset name headers rows,
          storageFileName := sfn, publicUrl := url, contentType := ct }]).metrics.tips
        = (parseDataset name headers rows).metrics.tips
      ∧ (combineDatasets [{
          toParsedFileData := parseDataset name headers rows,
          storageFileName := sfn, publicUrl := url, contentType := ct }]).metrics.laborCost
        = (parseDataset name headers rows).metrics.laborCost
      ∧ (combineDatasets [{
          toParsedFileData := parseDataset name headers rows,
          storageFileName := sfn, publicUrl := url, contentType := ct }]).metrics.laborHours
        = (parseDataset name headers rows).metrics.laborHours
      ∧ (combineDatasets [{
          toParsedFileData := parseDataset name headers rows,
          storageFileName := sfn, publicUrl := url, contentType := ct }]).metrics.laborPercentSamples
        = (parseDataset name headers rows).metrics.laborPercentSamples
      ∧ (combineDatasets [{
          toParsedFileData := parseDataset name headers rows,
          storageFileName := sfn, publicUrl := url, contentType := ct }]).metrics.categories
        = (parseDataset name headers rows).metrics.categories
      ∧ (combineDatasets [{
          toParsedFileData := parseDataset name headers rows,
          storageFileName := sfn, publicUrl := url, contentType := ct }]).metrics.daily
        = (parseDataset name headers rows).metrics.daily
      ∧ (combineDatasets [{
          toParsedFileData := parseDataset name headers rows,
          storageFileName := sfn, publicUrl := url, contentType := ct }]).keys
        = (parseDataset name headers rows).presentKeys := by
  obtain ⟨h1, h2, h3⟩ := parseDataset_invariants name headers rows
  exact combineDatasets_single
    {
      toParsedFileData := parseDataset name headers rows,
      storageFileName := sfn, publicUrl := url, contentType := ct } h1 h2 h3

/-- C9: a structural parse failure on any one file of a multi-file upload
(unreadable workbook, zero rows, or an empty detected header row) throws and
aborts the whole batch — the outcome never depends on the files after the
bad one, the handler answers HTTP 500, and no report record is persisted. -/
theorem structural_failure_aborts (pre : List FileUpload) (bad : FileUpload)
    (post : List FileUpload) (hb : structuralFailure bad = true) :
    (handleUpload (pre ++ bad :: post)).status = 500
      ∧ (handleUpload (pre ++ bad :: post)).persistedReport = none
      ∧ processFiles (pre ++ bad :: post) = processFiles (pre ++ [bad])
      ∧ ∃ e, processFiles (pre ++ bad :: post) = Except.error e := by
  obtain ⟨e, he, heq⟩ := processFiles_abort pre bad post hb
  refine ⟨?_, ?_, heq, e, he⟩
  · unfold handleUpload
    rw [he]
  · unfold handleUpload
    rw [he]

/-- C9 witness: a good file followed by an empty file and another good file
aborts with status 500, persisting nothing, with the third file irrelevant. -/
theorem structural_failure_aborts_witness :
    (handleUpload ([{
          name := "a.csv",
          extraction := some [[CellValue.vstr "Net Sales"], [CellValue.vnum (JSNum.fin 5)]] }]
        ++ { name := "bad.csv", extraction := some ([] : List (List CellValue)) }
          :: [{
            name := "c.csv",
            extraction := some [[CellValue.vstr "Net Sales"], [CellValue.vnum (JSNum.fin 7)]] }])).status = 500
      ∧ (handleUpload ([{
          name := "a.csv",
          extraction := some [[CellValue.vstr "Net Sales"], [CellValue.vnum (JSNum.fin 5)]] }]
        ++ { name := "bad.csv", extraction := some ([] : List (List CellValue)) }
          :: [{
            name := "c.csv",
            extraction := some [[CellValue.vstr "Net Sales"], [CellValue.vnum (JSNum.fin 7)]] }])).persistedReport = none :=
  ⟨(structural_failure_aborts _ _ _ (by decide)).1,
    (structural_failure_aborts _ _ _ (by decide)).2.1⟩
